import Mathlib

/-!
# advanced-vector: a shallow embedding of `Vector<T>` (vector.h)

A raw block is a list of slots; a slot is either raw memory (`none`) or a live
object (`some v`).  The capacity of a block is the number of its slots.
Iterators and references are modelled by the index of the slot they point to.
Every element operation that may throw in C++ is governed by a predicate of the
element type, and every routine returns the memory it leaves behind together
with the way it terminated.
-/

namespace AdvancedVector

/-- The exceptions that can leave an operation of the container. -/
inductive Exn where
  | bad_alloc
  | element_failure
  | out_of_range
  deriving DecidableEq, Repr

/-- How a memory routine terminated: normally, by an exception, or by running
into undefined behaviour (touching a slot outside the block, destroying or
reading a raw slot, a failed `assert`). -/
inductive Status where
  | ok
  | thrown (e : Exn)
  | undefined
  deriving DecidableEq, Repr

/-- How a member function terminated, with its return value. -/
inductive Outcome (ρ : Type) where
  | ret (r : ρ)
  | thrown (e : Exn)
  | undefined
  deriving DecidableEq, Repr

/-- The element type `T` as the container sees it, and the allocator under it.
`is_nothrow_move_constructible` and `is_copy_constructible` are the two type
traits `ReallocateData` branches on; the `...Throws` predicates say on which
values the corresponding special member function throws; `movedFrom` is the
state a moved-from object is left in; `allocOk n` says whether a request for
`n` slots can be satisfied.  A `noexcept` move constructor never lets an
exception out (`nothrow_move_sound`). -/
structure Env (α : Type) where
  is_nothrow_move_constructible : Bool
  is_copy_constructible : Bool
  copyThrows : α → Bool
  moveThrows : α → Bool
  copyAssignThrows : α → Bool
  moveAssignThrows : α → Bool
  valueInit : α
  valueInitThrows : Bool
  movedFrom : α → α
  allocOk : Nat → Bool
  nothrow_move_sound : is_nothrow_move_constructible = true → ∀ v, moveThrows v = false

/-- Modelled from the spec: `RawMemory<T>` (raw_memory.h, the RawBlock of the
spec) is a region of `capacity` slots none of which is constructed by the block
itself.  The list holds the slots; its length is the capacity. -/
abbrev RawMemory (α : Type) := List (Option α)

/-- Modelled from the spec: `RawMemory::Capacity`. -/
def RawMemory.Capacity {α : Type} (m : RawMemory α) : Nat := m.length

/-- Modelled from the spec: `RawMemory<T>(capacity)` requests raw storage for
`capacity` slots; a request for zero slots allocates nothing and cannot fail,
any other request fails with `bad_alloc` when the memory system refuses it. -/
def RawMemory.Allocate {α : Type} (E : Env α) (capacity : Nat) : Option (RawMemory α) :=
  if capacity = 0 then some []
  else if E.allocOk capacity then some (List.replicate capacity none)
  else none

variable {α : Type}

/-! ## The memory routines of `<memory>` and `<algorithm>` the class calls -/

/-- Placement new of the value `x` into slot `i` of block `b`. -/
def construct_at (b : RawMemory α) (i : Nat) (x : α) : RawMemory α × Status :=
  if i < b.length then (b.set i (some x), .ok) else (b, .undefined)

/-- The call `std::destroy_at(b + i)`: the slot must hold a live object. -/
def destroy_at (b : RawMemory α) (i : Nat) : RawMemory α × Status :=
  match b[i]? with
  | some (some _) => (b.set i none, .ok)
  | _ => (b, .undefined)

/-- The call `std::destroy_n(b + first, n)`. -/
def destroy_n (b : RawMemory α) (first : Nat) : Nat → RawMemory α × Status
  | 0 => (b, .ok)
  | n + 1 =>
    match destroy_at b first with
    | (b1, .ok) => destroy_n b1 (first + 1) n
    | r => r

/-- The call `std::uninitialized_copy_n(src + first, n, dst + d_first)` between
two distinct blocks.  When a copy constructor throws, the objects already
constructed in `dst` are destroyed and the exception is rethrown. -/
def uninitialized_copy_n (E : Env α) (src : RawMemory α) (first : Nat) :
    Nat → RawMemory α → Nat → RawMemory α × Status
  | 0, dst, _ => (dst, .ok)
  | n + 1, dst, d_first =>
    match src[first]? with
    | some (some v) =>
      if d_first < dst.length then
        if E.copyThrows v then (dst, .thrown .element_failure)
        else
          match uninitialized_copy_n E src (first + 1) n (dst.set d_first (some v)) (d_first + 1) with
          | (d, .ok) => (d, .ok)
          | (d, st) => (d.set d_first none, st)
      else (dst, .undefined)
    | _ => (dst, .undefined)

/-- The call `std::uninitialized_move_n(src + first, n, dst + d_first)` between
two distinct blocks.  Every source object is left in its moved-from state; when
a move constructor throws, the objects already constructed in `dst` are
destroyed and the exception is rethrown. -/
def uninitialized_move_n (E : Env α) :
    RawMemory α → Nat → Nat → RawMemory α → Nat → RawMemory α × RawMemory α × Status
  | src, _, 0, dst, _ => (src, dst, .ok)
  | src, first, n + 1, dst, d_first =>
    match src[first]? with
    | some (some v) =>
      if d_first < dst.length then
        if E.moveThrows v then (src, dst, .thrown .element_failure)
        else
          match uninitialized_move_n E (src.set first (some (E.movedFrom v))) (first + 1) n
              (dst.set d_first (some v)) (d_first + 1) with
          | (s, d, .ok) => (s, d, .ok)
          | (s, d, st) => (s, d.set d_first none, st)
      else (src, dst, .undefined)
    | _ => (src, dst, .undefined)

/-- The call `std::uninitialized_move_n(b + first, n, b + d_first)` inside one
block (the form `Emplace` uses to open the slot past the end). -/
def uninitialized_move_n_within (E : Env α) :
    RawMemory α → Nat → Nat → Nat → RawMemory α × Status
  | b, _, 0, _ => (b, .ok)
  | b, first, n + 1, d_first =>
    match b[first]? with
    | some (some v) =>
      if d_first < b.length then
        if E.moveThrows v then (b, .thrown .element_failure)
        else
          match uninitialized_move_n_within E
              ((b.set d_first (some v)).set first (some (E.movedFrom v))) (first + 1) n (d_first + 1) with
          | (b1, .ok) => (b1, .ok)
          | (b1, st) => (b1.set d_first none, st)
      else (b, .undefined)
    | _ => (b, .undefined)

/-- The call `std::uninitialized_value_construct_n(b + first, n)`. -/
def uninitialized_value_construct_n (E : Env α) :
    RawMemory α → Nat → Nat → RawMemory α × Status
  | b, _, 0 => (b, .ok)
  | b, first, n + 1 =>
    if first < b.length then
      if E.valueInitThrows then (b, .thrown .element_failure)
      else
        match uninitialized_value_construct_n E (b.set first (some E.valueInit)) (first + 1) n with
        | (b1, .ok) => (b1, .ok)
        | (b1, st) => (b1.set first none, st)
    else (b, .undefined)

/-- The move assignment `b[dst] = std::move(b[src])` of one live object to
another inside one block. -/
def move_assign_slot (E : Env α) (b : RawMemory α) (src dst : Nat) : RawMemory α × Status :=
  match b[src]?, b[dst]? with
  | some (some v), some (some _) =>
    if E.moveAssignThrows v then (b, .thrown .element_failure)
    else ((b.set dst (some v)).set src (some (E.movedFrom v)), .ok)
  | _, _ => (b, .undefined)

/-- The move assignment `b[dst] = std::move(value)` from a local object. -/
def move_assign_value (E : Env α) (b : RawMemory α) (dst : Nat) (value : α) :
    RawMemory α × Status :=
  match b[dst]? with
  | some (some _) =>
    if E.moveAssignThrows value then (b, .thrown .element_failure)
    else (b.set dst (some value), .ok)
  | _ => (b, .undefined)

/-- The loop of `std::move_backward(b + first, b + last, b + d_last)` with
`count = last - first` assignments still to do:
`*(--d_last) = std::move(*(--last))`. -/
def move_backward_loop (E : Env α) (first : Nat) :
    Nat → Nat → RawMemory α → RawMemory α × Status
  | 0, _, b => (b, .ok)
  | count + 1, d_last, b =>
    if 0 < d_last then
      match move_assign_slot E b (first + count) (d_last - 1) with
      | (b1, .ok) => move_backward_loop E first count (d_last - 1) b1
      | r => r
    else (b, .undefined)

/-- The call `std::move_backward(b + first, b + last, b + d_last)`. -/
def move_backward (E : Env α) (b : RawMemory α) (first last d_last : Nat) :
    RawMemory α × Status :=
  move_backward_loop E first (last - first) d_last b

/-- The loop of `std::move(b + first, b + last, b + d_first)` with `count`
assignments still to do: `*d_first++ = std::move(*first++)`. -/
def move_loop (E : Env α) : Nat → Nat → Nat → RawMemory α → RawMemory α × Status
  | 0, _, _, b => (b, .ok)
  | count + 1, first, d_first, b =>
    match move_assign_slot E b first d_first with
    | (b1, .ok) => move_loop E count (first + 1) (d_first + 1) b1
    | r => r

/-- The call `std::move(b + first, b + last, b + d_first)` (the algorithm). -/
def move_range (E : Env α) (b : RawMemory α) (first last d_first : Nat) :
    RawMemory α × Status :=
  move_loop E (last - first) first d_first b

/-- The call `std::copy(src + first, src + first + n, dst + d_first)` between
two distinct blocks: copy assignment onto live objects. -/
def copy_n_assign (E : Env α) (src : RawMemory α) :
    Nat → Nat → RawMemory α → Nat → RawMemory α × Status
  | _, 0, dst, _ => (dst, .ok)
  | first, n + 1, dst, d_first =>
    match src[first]?, dst[d_first]? with
    | some (some v), some (some _) =>
      if E.copyAssignThrows v then (dst, .thrown .element_failure)
      else copy_n_assign E src (first + 1) n (dst.set d_first (some v)) (d_first + 1)
    | _, _ => (dst, .undefined)

/-! ## Relocation -/

/-- The private `Vector::ReallocateData(address, count, new_address)`, with
`address = src + first` and `new_address = dst + d_first`: move the objects when
`T` is nothrow-move-constructible or not copy-constructible, copy them
otherwise, then destroy the originals. -/
def ReallocateData (E : Env α) (src : RawMemory α) (first count : Nat)
    (dst : RawMemory α) (d_first : Nat) : RawMemory α × RawMemory α × Status :=
  if E.is_nothrow_move_constructible || !E.is_copy_constructible then
    match uninitialized_move_n E src first count dst d_first with
    | (s, d, .ok) =>
      match destroy_n s first count with
      | (s1, st) => (s1, d, st)
    | r => r
  else
    match uninitialized_copy_n E src first count dst d_first with
    | (d, .ok) =>
      match destroy_n src first count with
      | (s1, st) => (s1, d, st)
    | (d, st) => (src, d, st)

/-! ## The class `Vector<T>` -/

/-- The class `Vector<T>`: the block `data_` and the number `size_` of live
objects at its start. -/
structure Vector (α : Type) where
  data_ : RawMemory α
  size_ : Nat
  deriving DecidableEq, Repr

namespace Vector

/-- The default constructor `Vector()`: no block, no element. -/
def empty : Vector α := { data_ := [], size_ := 0 }

/-- The member `Size()`. -/
def Size (v : Vector α) : Nat := v.size_

/-- The member `Capacity()`. -/
def Capacity (v : Vector α) : Nat := RawMemory.Capacity v.data_

/-- An exception or undefined behaviour of a memory routine seen as the
termination of the member function running it. -/
def ofStatus {ρ : Type} (st : Status) (r : ρ) : Outcome ρ :=
  match st with
  | .ok => .ret r
  | .thrown e => .thrown e
  | .undefined => .undefined

/-- The constructor `Vector(size_t size)`: `size` value-initialised objects in a
block of exactly `size` slots. -/
def construct_sized (E : Env α) (size : Nat) : Outcome (Vector α) :=
  match RawMemory.Allocate E size with
  | none => .thrown .bad_alloc
  | some data =>
    match uninitialized_value_construct_n E data 0 size with
    | (d, st) => ofStatus st { data_ := d, size_ := size }

/-- The copy constructor `Vector(const Vector& other)`: a block of exactly
`other.size_` slots filled with copies of the objects of `other`. -/
def construct_copy (E : Env α) (other : Vector α) : Outcome (Vector α) :=
  match RawMemory.Allocate E other.size_ with
  | none => .thrown .bad_alloc
  | some data =>
    match uninitialized_copy_n E other.data_ 0 other.size_ data 0 with
    | (d, st) => ofStatus st { data_ := d, size_ := other.size_ }

/-- The member `Swap(other)`: exchanges the blocks and the sizes; the result is
the pair (this vector, the other vector) after the call. -/
def Swap (self other : Vector α) : Vector α × Vector α :=
  ({ data_ := other.data_, size_ := other.size_ }, { data_ := self.data_, size_ := self.size_ })

/-- The move constructor `Vector(Vector&& other)`: a default-constructed vector
swapped with `other`; the result is (the new vector, `other` afterwards). -/
def construct_move (other : Vector α) : Vector α × Vector α :=
  Swap empty other

/-- The move assignment `operator=(Vector&& rhs)` for `this != &rhs`; the
result is (this vector, `rhs`) after the call. -/
def move_assign (self rhs : Vector α) : Vector α × Vector α :=
  Swap self rhs

/-- The copy assignment `operator=(const Vector& rhs)` for `this != &rhs`;
`rhs` is only read. -/
def copy_assign (E : Env α) (self rhs : Vector α) : Vector α × Outcome Unit :=
  if rhs.size_ > self.Capacity then
    match construct_copy E rhs with
    | .ret rhs_copy => ({ (Swap self rhs_copy).1 with size_ := rhs.size_ }, .ret ())
    | .thrown e => (self, .thrown e)
    | .undefined => (self, .undefined)
  else if rhs.size_ < self.size_ then
    match copy_n_assign E rhs.data_ 0 rhs.size_ self.data_ 0 with
    | (d, .ok) =>
      match destroy_n d rhs.size_ (self.size_ - rhs.size_) with
      | (d1, .ok) => ({ data_ := d1, size_ := rhs.size_ }, .ret ())
      | (d1, st) => ({ data_ := d1, size_ := self.size_ }, ofStatus st ())
    | (d, st) => ({ data_ := d, size_ := self.size_ }, ofStatus st ())
  else
    match copy_n_assign E rhs.data_ 0 self.size_ self.data_ 0 with
    | (d, .ok) =>
      match uninitialized_copy_n E rhs.data_ self.size_ (rhs.size_ - self.size_) d self.size_ with
      | (d1, .ok) => ({ data_ := d1, size_ := rhs.size_ }, .ret ())
      | (d1, st) => ({ data_ := d1, size_ := self.size_ }, ofStatus st ())
    | (d, st) => ({ data_ := d, size_ := self.size_ }, ofStatus st ())

/-- The member `Reserve(new_capacity)`. -/
def Reserve (E : Env α) (v : Vector α) (new_capacity : Nat) : Vector α × Outcome Unit :=
  if new_capacity ≤ v.Capacity then (v, .ret ())
  else
    match RawMemory.Allocate E new_capacity with
    | none => (v, .thrown .bad_alloc)
    | some new_data =>
      match ReallocateData E v.data_ 0 v.size_ new_data 0 with
      | (_, nd, .ok) => ({ data_ := nd, size_ := v.size_ }, .ret ())
      | (od, _, st) => ({ data_ := od, size_ := v.size_ }, ofStatus st ())

/-- The member `Resize(new_size)`. -/
def Resize (E : Env α) (v : Vector α) (new_size : Nat) : Vector α × Outcome Unit :=
  if new_size = v.size_ then (v, .ret ())
  else if new_size < v.size_ then
    match destroy_n v.data_ new_size (v.size_ - new_size) with
    | (d, .ok) => ({ data_ := d, size_ := new_size }, .ret ())
    | (d, st) => ({ data_ := d, size_ := v.size_ }, ofStatus st ())
  else if new_size > v.size_ then
    match Reserve E v new_size with
    | (v1, .ret _) =>
      match uninitialized_value_construct_n E v1.data_ v1.size_ (new_size - v1.size_) with
      | (d, .ok) => ({ data_ := d, size_ := new_size }, .ret ())
      | (d, st) => ({ data_ := d, size_ := v1.size_ }, ofStatus st ())
    | r => r
  else ({ data_ := v.data_, size_ := new_size }, .ret ())

/-- The member `PopBack()`. -/
def PopBack (v : Vector α) : Vector α × Outcome Unit :=
  if 0 < v.size_ then
    match destroy_at v.data_ (v.size_ - 1) with
    | (d, .ok) => ({ data_ := d, size_ := v.size_ - 1 }, .ret ())
    | (d, st) => ({ data_ := d, size_ := v.size_ }, ofStatus st ())
  else (v, .undefined)

/-- The member `EmplaceBack(args...)`.  `args` is what `T(args...)` evaluates
to: `some x` when the constructor builds the value `x`, `none` when it throws.
The returned number is the index of the object the returned reference
denotes. -/
def EmplaceBack (E : Env α) (v : Vector α) (args : Option α) : Vector α × Outcome Nat :=
  if v.size_ = v.Capacity then
    let new_size := if v.size_ = 0 then 1 else v.size_ * 2
    match RawMemory.Allocate E new_size with
    | none => (v, .thrown .bad_alloc)
    | some new_data =>
      match args with
      | none => (v, .thrown .element_failure)
      | some x =>
        match construct_at new_data v.size_ x with
        | (nd0, .ok) =>
          let r :=
            match ReallocateData E v.data_ 0 v.size_ nd0 0 with
            | (od, nd, .thrown _) =>
              -- catch (...) { std::destroy_at(data_ + size_ - 1); }
              if 0 < v.size_ then
                match destroy_at od (v.size_ - 1) with
                | (od1, st) => (od1, nd, st)
              else (od, nd, .undefined)
            | r => r
          match r with
          | (_, nd, .ok) => ({ data_ := nd, size_ := v.size_ + 1 }, .ret v.size_)
          | (od, _, st) => ({ data_ := od, size_ := v.size_ }, ofStatus st v.size_)
        | (_, st) => (v, ofStatus st v.size_)
  else
    match args with
    | none => (v, .thrown .element_failure)
    | some x =>
      match construct_at v.data_ v.size_ x with
      | (d, .ok) => ({ data_ := d, size_ := v.size_ + 1 }, .ret v.size_)
      | (d, st) => ({ data_ := d, size_ := v.size_ }, ofStatus st v.size_)

/-- The member `PushBack(const T& value)`: `EmplaceBack` through the copy
constructor. -/
def PushBack (E : Env α) (v : Vector α) (value : α) : Vector α × Outcome Unit :=
  match EmplaceBack E v (if E.copyThrows value then none else some value) with
  | (v1, .ret _) => (v1, .ret ())
  | (v1, .thrown e) => (v1, .thrown e)
  | (v1, .undefined) => (v1, .undefined)

/-- The member `PushBack(T&& value)`: `EmplaceBack` through the move
constructor. -/
def PushBackMove (E : Env α) (v : Vector α) (value : α) : Vector α × Outcome Unit :=
  match EmplaceBack E v (if E.moveThrows value then none else some value) with
  | (v1, .ret _) => (v1, .ret ())
  | (v1, .thrown e) => (v1, .thrown e)
  | (v1, .undefined) => (v1, .undefined)

/-- The member `Emplace(pos, args...)` with `pos = begin() + index`; the
returned number is the index the returned iterator points to. -/
def Emplace (E : Env α) (v : Vector α) (index : Nat) (args : Option α) :
    Vector α × Outcome Nat :=
  if index ≤ v.size_ then
    if index = v.size_ then
      match EmplaceBack E v args with
      | (v1, .ret _) => (v1, .ret (v1.size_ - 1))
      | r => r
    else if v.size_ < v.Capacity then
      match args with
      | none => (v, .thrown .element_failure)
      | some value =>
        match uninitialized_move_n_within E v.data_ (v.size_ - 1) 1 v.size_ with
        | (d1, .ok) =>
          let r :=
            match move_backward E d1 index (v.size_ - 1) v.size_ with
            -- catch (...) { std::destroy_at(end() - 1); }
            | (d2, .thrown _) => destroy_at d2 (v.size_ - 1)
            | r => r
          match r with
          | (d3, .ok) =>
            match move_assign_value E d3 index value with
            | (d4, .ok) => ({ data_ := d4, size_ := v.size_ + 1 }, .ret index)
            | (d4, st) => ({ data_ := d4, size_ := v.size_ }, ofStatus st index)
          | (d3, st) => ({ data_ := d3, size_ := v.size_ }, ofStatus st index)
        | (d1, st) => ({ data_ := d1, size_ := v.size_ }, ofStatus st index)
    else
      let new_size := if v.size_ = 0 then 1 else v.size_ * 2
      match RawMemory.Allocate E new_size with
      | none => (v, .thrown .bad_alloc)
      | some new_data =>
        match args with
        | none => (v, .thrown .element_failure)
        | some x =>
          match construct_at new_data index x with
          | (nd0, .ok) =>
            let r1 :=
              match ReallocateData E v.data_ 0 index nd0 0 with
              -- catch (...) { std::destroy_n(new_data + index, 1); }
              | (od, nd, .thrown _) =>
                match destroy_n nd index 1 with
                | (nd1, st) => (od, nd1, st)
              | r => r
            match r1 with
            | (od1, nd1, .ok) =>
              let r2 :=
                match ReallocateData E od1 index (v.size_ - index) nd1 (index + 1) with
                -- catch (...) { std::destroy_n(new_data.GetAddress(), index + 1); }
                | (od, nd, .thrown _) =>
                  match destroy_n nd 0 (index + 1) with
                  | (nd2, st) => (od, nd2, st)
                | r => r
              match r2 with
              | (_, nd2, .ok) => ({ data_ := nd2, size_ := v.size_ + 1 }, .ret index)
              | (od2, _, st) => ({ data_ := od2, size_ := v.size_ }, ofStatus st index)
            | (od1, _, st) => ({ data_ := od1, size_ := v.size_ }, ofStatus st index)
          | (_, st) => (v, ofStatus st index)
  else (v, .undefined)

/-- The member `Insert(pos, const T& value)`: `Emplace` through the copy
constructor. -/
def Insert (E : Env α) (v : Vector α) (index : Nat) (value : α) : Vector α × Outcome Nat :=
  Emplace E v index (if E.copyThrows value then none else some value)

/-- The member `Insert(pos, T&& value)`: `Emplace` through the move
constructor. -/
def InsertMove (E : Env α) (v : Vector α) (index : Nat) (value : α) : Vector α × Outcome Nat :=
  Emplace E v index (if E.moveThrows value then none else some value)

/-- The member `Erase(pos)` with `pos = begin() + index`; the returned number
is the index the returned iterator points to. -/
def Erase (E : Env α) (v : Vector α) (index : Nat) : Vector α × Outcome Nat :=
  if index < v.size_ then
    match move_range E v.data_ (index + 1) v.size_ index with
    | (d, .ok) =>
      match PopBack { data_ := d, size_ := v.size_ } with
      | (v1, .ret _) => (v1, .ret index)
      | (v1, .thrown e) => (v1, .thrown e)
      | (v1, .undefined) => (v1, .undefined)
    | (d, st) => ({ data_ := d, size_ := v.size_ }, ofStatus st index)
  else (v, .undefined)

/-- The vector whose live objects are `vs`, in a block of `cap` slots (the
slots past the live objects are raw). -/
def ofList (vs : List α) (cap : Nat) : Vector α :=
  { data_ := vs.map some ++ List.replicate (cap - vs.length) none, size_ := vs.length }

end Vector

open Vector

/-! ## Element types used in examples -/

/-- The element type `int`: no operation throws, moving an `int` leaves it as
it was, value-initialisation gives `0`; every allocation succeeds. -/
def intEnv : Env Int where
  is_nothrow_move_constructible := true
  is_copy_constructible := true
  copyThrows := fun _ => false
  moveThrows := fun _ => false
  copyAssignThrows := fun _ => false
  moveAssignThrows := fun _ => false
  valueInit := 0
  valueInitThrows := false
  movedFrom := fun v => v
  allocOk := fun _ => true
  nothrow_move_sound := fun _ _ => rfl

/-- An element type wrapping an `int` whose copy constructor throws on the value
`13` and whose move constructor is not `noexcept`, so that relocation copies. -/
def throwingCopyEnv : Env Int where
  is_nothrow_move_constructible := false
  is_copy_constructible := true
  copyThrows := fun v => v == 13
  moveThrows := fun _ => false
  copyAssignThrows := fun _ => false
  moveAssignThrows := fun _ => false
  valueInit := 0
  valueInitThrows := false
  movedFrom := fun v => v
  allocOk := fun _ => true
  nothrow_move_sound := fun _ _ => rfl

/-- An element type wrapping an `int` that cannot be copied and whose move
constructor is not `noexcept`: it throws on the value `13`, and a moved-from
object holds `0`.  Relocation moves. -/
def throwingMoveEnv : Env Int where
  is_nothrow_move_constructible := false
  is_copy_constructible := false
  copyThrows := fun _ => false
  moveThrows := fun v => v == 13
  copyAssignThrows := fun _ => false
  moveAssignThrows := fun _ => false
  valueInit := 0
  valueInitThrows := false
  movedFrom := fun _ => 0
  allocOk := fun _ => true
  nothrow_move_sound := fun h => by simp at h

/-! ## Vocabulary of the statements -/

/-- No special member function of the element type throws. -/
def Env.NoElementFailure (E : Env α) : Prop :=
  (∀ v, E.copyThrows v = false) ∧ (∀ v, E.moveThrows v = false) ∧
  (∀ v, E.copyAssignThrows v = false) ∧ (∀ v, E.moveAssignThrows v = false) ∧
  E.valueInitThrows = false

/-- Every request for raw storage is satisfied. -/
def Env.NoAllocFailure (E : Env α) : Prop := ∀ n, E.allocOk n = true

/-- What slot `first` holds after the backward shift of `as` into a gap holding `r`. -/
def shiftHead (E : Env α) (as : List α) (r : α) : α :=
  match as with
  | [] => r
  | a :: _ => E.movedFrom a

/-- What the last slot of the shifted range holds after the forward shift of
`as` onto a slot holding `d`. -/
def shiftLast (E : Env α) : List α → α → α
  | [], d => d
  | a :: as, _ => shiftLast E as (E.movedFrom a)

/-- The size and capacity of the vector a member function leaves behind: those
announced when it returns `retval`, the old ones otherwise. -/
def Shape (v : Vector α) (r : Vector α × Outcome Nat) (retval size cap : Nat) : Prop :=
  (r.2 = Outcome.ret retval ∧ r.1.size_ = size ∧ r.1.data_.length = cap)
    ∨ ((∀ i, r.2 ≠ Outcome.ret i) ∧ r.1.size_ = v.size_ ∧ r.1.data_.length = v.data_.length)

/-! ## Programs: calls on a store of vectors -/

/-- A call of the public interface of `Vector<T>` in a program that owns
several vectors; the vectors are named by their position in the store. -/
inductive Call (α : Type) where
  | default_construct
  | sized_construct (size : Nat)
  | copy_construct (other : Nat)
  | move_construct (other : Nat)
  | copy_assign (self rhs : Nat)
  | move_assign (self rhs : Nat)
  | swap (self other : Nat)
  | reserve (self new_capacity : Nat)
  | resize (self new_size : Nat)
  | push_back (self : Nat) (value : α)
  | push_back_move (self : Nat) (value : α)
  | pop_back (self : Nat)
  | emplace_back (self : Nat) (args : Option α)
  | insert (self index : Nat) (value : α)
  | insert_move (self index : Nat) (value : α)
  | emplace (self index : Nat) (args : Option α)
  | erase (self index : Nat)

/-- The store after a member function has run on the vector at position `self`:
the vector is replaced by what the call left behind, also when the call threw
(the caller catches the exception); after undefined behaviour there is no
store to speak of. -/
def commit {ρ : Type} (s : List (Vector α)) (self : Nat) (r : Vector α × Outcome ρ) :
    Option (List (Vector α)) :=
  match r.2 with
  | .undefined => none
  | _ => some (s.set self r.1)

/-- One call on the store.  The result is `none` when the call names a vector
that does not exist, is made outside its precondition, or runs into undefined
behaviour.  A constructor that throws constructs nothing. -/
def step (E : Env α) (s : List (Vector α)) : Call α → Option (List (Vector α))
  | .default_construct => some (s ++ [Vector.empty])
  | .sized_construct size =>
    match construct_sized E size with
    | .ret v => some (s ++ [v])
    | .thrown _ => some s
    | .undefined => none
  | .copy_construct other =>
    match s[other]? with
    | none => none
    | some o =>
      match construct_copy E o with
      | .ret v => some (s ++ [v])
      | .thrown _ => some s
      | .undefined => none
  | .move_construct other =>
    match s[other]? with
    | none => none
    | some o => some (s.set other (construct_move o).2 ++ [(construct_move o).1])
  | .copy_assign self rhs =>
    match s[self]?, s[rhs]? with
    | some v, some r => if self = rhs then some s else commit s self (Vector.copy_assign E v r)
    | _, _ => none
  | .move_assign self rhs =>
    match s[self]?, s[rhs]? with
    | some v, some r =>
      if self = rhs then some s
      else some ((s.set self (Vector.move_assign v r).1).set rhs (Vector.move_assign v r).2)
    | _, _ => none
  | .swap self other =>
    match s[self]?, s[other]? with
    | some v, some o =>
      if self = other then some s
      else some ((s.set self (Swap v o).1).set other (Swap v o).2)
    | _, _ => none
  | .reserve self new_capacity =>
    match s[self]? with
    | some v => commit s self (Reserve E v new_capacity)
    | none => none
  | .resize self new_size =>
    match s[self]? with
    | some v => commit s self (Resize E v new_size)
    | none => none
  | .push_back self value =>
    match s[self]? with
    | some v => commit s self (PushBack E v value)
    | none => none
  | .push_back_move self value =>
    match s[self]? with
    | some v => commit s self (PushBackMove E v value)
    | none => none
  | .pop_back self =>
    match s[self]? with
    | some v => commit s self (PopBack v)
    | none => none
  | .emplace_back self args =>
    match s[self]? with
    | some v => commit s self (EmplaceBack E v args)
    | none => none
  | .insert self index value =>
    match s[self]? with
    | some v => commit s self (Vector.Insert E v index value)
    | none => none
  | .insert_move self index value =>
    match s[self]? with
    | some v => commit s self (InsertMove E v index value)
    | none => none
  | .emplace self index args =>
    match s[self]? with
    | some v => commit s self (Emplace E v index args)
    | none => none
  | .erase self index =>
    match s[self]? with
    | some v => commit s self (Erase E v index)
    | none => none

/-- A finite sequence of calls, run from the store `s`. -/
def run (E : Env α) (s : List (Vector α)) : List (Call α) → Option (List (Vector α))
  | [] => some s
  | c :: cs =>
    match step E s c with
    | some s1 => run E s1 cs
    | none => none

/-- The invariant of the data model: no more live objects than slots. -/
def Inv (v : Vector α) : Prop := v.size_ ≤ v.Capacity

/-- Successive `EmplaceBack` calls on one vector, each of which returns
(`PushBack(x)` is the call whose argument is the copy or the move of `x`). -/
def emplace_back_all (E : Env α) : Vector α → List (Option α) → Option (Vector α)
  | v, [] => some v
  | v, a :: as =>
    match EmplaceBack E v a with
    | (v1, .ret _) => emplace_back_all E v1 as
    | _ => none

/-- The capacity reached by doubling after `k` appends to an empty vector. -/
def DoubledFor (k cap : Nat) : Prop :=
  (k = 0 ∧ cap = 0) ∨ (1 ≤ k ∧ k ≤ cap ∧ cap < 2 * k ∧ ∃ e, cap = 2 ^ e)

/-- The vector a call is made on, for the member functions that involve no
other vector. -/
def Call.mutated : Call α → Option Nat
  | .reserve self _ => some self
  | .resize self _ => some self
  | .push_back self _ => some self
  | .push_back_move self _ => some self
  | .pop_back self => some self
  | .emplace_back self _ => some self
  | .insert self _ _ => some self
  | .insert_move self _ _ => some self
  | .emplace self _ _ => some self
  | .erase self _ => some self
  | _ => none

/-! ## Element access, and two more element types -/

/-- The member `operator[](index)`: `assert(index < size_)`, then the object in
slot `index` of the block; the vector itself is not touched. -/
def Vector.subscript (v : Vector α) (index : Nat) : Vector α × Outcome α :=
  if index < v.size_ then
    match v.data_[index]? with
    | some (some x) => (v, .ret x)
    | _ => (v, .undefined)
  else (v, .undefined)

/-- Modelled from the spec: the checked access `At(index)` (called by tests.h,
absent from vector.h) fails with `OutOfRange` when `index >= size` and otherwise
returns the element at `index`; it never changes the vector. -/
def Vector.At (v : Vector α) (index : Nat) : Vector α × Outcome α :=
  if index ≥ v.size_ then (v, .thrown .out_of_range)
  else
    match v.data_[index]? with
    | some (some x) => (v, .ret x)
    | _ => (v, .undefined)

/-- The element type `int` over a memory system that refuses every request for
more than four slots. -/
def smallHeapEnv : Env Int where
  is_nothrow_move_constructible := true
  is_copy_constructible := true
  copyThrows := fun _ => false
  moveThrows := fun _ => false
  copyAssignThrows := fun _ => false
  moveAssignThrows := fun _ => false
  valueInit := 0
  valueInitThrows := false
  movedFrom := fun v => v
  allocOk := fun n => decide (n ≤ 4)
  nothrow_move_sound := fun _ _ => rfl

/-- An element type wrapping an `int` whose move assignment throws when the
value `2` is moved (its move constructor is not `noexcept` either). -/
def throwingAssignEnv : Env Int where
  is_nothrow_move_constructible := false
  is_copy_constructible := true
  copyThrows := fun _ => false
  moveThrows := fun _ => false
  copyAssignThrows := fun _ => false
  moveAssignThrows := fun v => v == 2
  valueInit := 0
  valueInitThrows := false
  movedFrom := fun v => v
  allocOk := fun _ => true
  nothrow_move_sound := fun h => by simp at h

/-! ## Memory routines on well-formed ranges -/

theorem getElem?_mid {β : Type} (L R : List β) (a : β) (i : Nat) (h : i = L.length) :
    (L ++ a :: R)[i]? = some a := by
  subst h; rw [List.getElem?_append_right (Nat.le_refl _)]; simp

theorem set_mid {β : Type} (L R : List β) (a b : β) (i : Nat) (h : i = L.length) :
    (L ++ a :: R).set i b = L ++ b :: R := by
  subst h; simp

theorem destroy_n_live (L R : List (Option α)) (ws : List α) (first : Nat)
    (h : first = L.length) :
    destroy_n (L ++ ws.map some ++ R) first ws.length
      = (L ++ List.replicate ws.length none ++ R, Status.ok) := by
  induction ws generalizing L first with
  | nil => simp [destroy_n]
  | cons w ws ih =>
    have h1 : (L ++ (some w :: ws.map some) ++ R)[first]? = some (some w) := by
      rw [List.append_assoc]; exact getElem?_mid L _ _ _ h
    have h2 : (L ++ (some w :: ws.map some) ++ R).set first none
        = (L ++ [none]) ++ ws.map some ++ R := by
      rw [List.append_assoc, List.cons_append, set_mid L _ _ _ _ h]; simp
    simp only [List.map_cons, List.length_cons, destroy_n, destroy_at, h1, h2]
    rw [ih (L ++ [none]) (first + 1) (by simp [h])]
    simp [List.replicate_succ]

theorem uninitialized_copy_n_ok (E : Env α) (src : List (Option α)) (L R DL DR : List (Option α))
    (ws : List α) (xs : List (Option α)) (first d_first : Nat)
    (hsrc : src = L ++ ws.map some ++ R)
    (h : first = L.length) (hd : d_first = DL.length) (hx : xs.length = ws.length)
    (hcopy : ∀ w ∈ ws, E.copyThrows w = false) :
    uninitialized_copy_n E src first ws.length (DL ++ xs ++ DR) d_first
      = (DL ++ ws.map some ++ DR, Status.ok) := by
  induction ws generalizing L DL xs first d_first with
  | nil =>
    have : xs = [] := List.length_eq_zero.mp hx
    simp [uninitialized_copy_n, this]
  | cons w ws ih =>
    obtain ⟨y, ys, rfl⟩ : ∃ y ys, xs = y :: ys := by
      cases xs with
      | nil => simp at hx
      | cons y ys => exact ⟨y, ys, rfl⟩
    have h1 : src[first]? = some (some w) := by
      rw [hsrc, List.map_cons, List.append_assoc, List.cons_append]; exact getElem?_mid L _ _ _ h
    have h2 : d_first < (DL ++ y :: ys ++ DR).length := by simp [hd]
    have h3 : (DL ++ y :: ys ++ DR).set d_first (some w) = (DL ++ [some w]) ++ ys ++ DR := by
      rw [List.append_assoc, List.cons_append, set_mid DL _ _ _ _ hd]; simp
    have hw : E.copyThrows w = false := hcopy w (by simp)
    simp only [List.length_cons, uninitialized_copy_n, h1, h2, h3, hw, if_true]
    rw [ih (L ++ [some w]) (DL ++ [some w]) ys (first + 1) (d_first + 1) (by simp [hsrc])
      (by simp [h]) (by simp [hd]) (by simpa using hx) (fun v hv => hcopy v (by simp [hv]))]
    simp


theorem uninitialized_copy_n_throws (E : Env α) (src : List (Option α)) (L R DL DR : List (Option α))
    (ws : List α) (first d_first : Nat)
    (hsrc : src = L ++ ws.map some ++ R)
    (h : first = L.length) (hd : d_first = DL.length)
    (hcopy : ws.any E.copyThrows = true) :
    uninitialized_copy_n E src first ws.length (DL ++ List.replicate ws.length none ++ DR) d_first
      = (DL ++ List.replicate ws.length none ++ DR, Status.thrown Exn.element_failure) := by
  induction ws generalizing L DL first d_first with
  | nil => simp at hcopy
  | cons w ws ih =>
    have h1 : src[first]? = some (some w) := by
      rw [hsrc, List.map_cons, List.append_assoc, List.cons_append]; exact getElem?_mid L _ _ _ h
    have h2 : d_first < (DL ++ List.replicate (ws.length + 1) none ++ DR).length := by
      simp [hd]
    have h3 : (DL ++ List.replicate (ws.length + 1) none ++ DR).set d_first (some w)
        = (DL ++ [some w]) ++ List.replicate ws.length none ++ DR := by
      rw [List.replicate_succ, List.append_assoc, List.cons_append, set_mid DL _ _ _ _ hd]; simp
    simp only [List.length_cons, uninitialized_copy_n, h1, h2, if_true]
    by_cases hw : E.copyThrows w = true
    · simp [hw]
    · have hw0 : E.copyThrows w = false := by simpa using hw
      have hrest : ws.any E.copyThrows = true := by
        simpa [List.any_cons, hw0] using hcopy
      simp only [hw0, h3]
      rw [ih (L ++ [some w]) (DL ++ [some w]) (first + 1) (d_first + 1) (by simp [hsrc])
        (by simp [h]) (by simp [hd]) hrest]
      simp only [Bool.false_eq_true, if_false]
      rw [List.append_assoc, List.append_assoc, List.singleton_append,
        set_mid DL _ _ _ _ hd]
      simp [List.replicate_succ]

theorem uninitialized_move_n_ok (E : Env α) (L R DL DR : List (Option α))
    (ws : List α) (xs : List (Option α)) (first d_first : Nat)
    (h : first = L.length) (hd : d_first = DL.length) (hx : xs.length = ws.length)
    (hmove : ∀ w ∈ ws, E.moveThrows w = false) :
    uninitialized_move_n E (L ++ ws.map some ++ R) first ws.length (DL ++ xs ++ DR) d_first
      = (L ++ ws.map (fun w => some (E.movedFrom w)) ++ R, DL ++ ws.map some ++ DR, Status.ok) := by
  induction ws generalizing L DL xs first d_first with
  | nil =>
    have : xs = [] := List.length_eq_zero.mp hx
    simp [uninitialized_move_n, this]
  | cons w ws ih =>
    obtain ⟨y, ys, rfl⟩ : ∃ y ys, xs = y :: ys := by
      cases xs with
      | nil => simp at hx
      | cons y ys => exact ⟨y, ys, rfl⟩
    have h1 : (L ++ (w :: ws).map some ++ R)[first]? = some (some w) := by
      rw [List.map_cons, List.append_assoc, List.cons_append]; exact getElem?_mid L _ _ _ h
    have h2 : d_first < (DL ++ y :: ys ++ DR).length := by simp [hd]
    have h3 : (DL ++ y :: ys ++ DR).set d_first (some w) = (DL ++ [some w]) ++ ys ++ DR := by
      rw [List.append_assoc, List.cons_append, set_mid DL _ _ _ _ hd]; simp
    have h4 : (L ++ (w :: ws).map some ++ R).set first (some (E.movedFrom w))
        = (L ++ [some (E.movedFrom w)]) ++ ws.map some ++ R := by
      rw [List.map_cons, List.append_assoc, List.cons_append, set_mid L _ _ _ _ h]; simp
    have hw : E.moveThrows w = false := hmove w (by simp)
    simp only [List.length_cons, uninitialized_move_n, h1, h2, h3, h4, hw, if_true]
    rw [ih (L ++ [some (E.movedFrom w)]) (DL ++ [some w]) ys (first + 1) (d_first + 1)
      (by simp [h]) (by simp [hd]) (by simpa using hx) (fun v hv => hmove v (by simp [hv]))]
    simp

theorem ReallocateData_ok (E : Env α) (L R DL DR : List (Option α))
    (ws : List α) (xs : List (Option α)) (first d_first : Nat)
    (h : first = L.length) (hd : d_first = DL.length) (hx : xs.length = ws.length)
    (hmove : ∀ w ∈ ws, E.moveThrows w = false) (hcopy : ∀ w ∈ ws, E.copyThrows w = false) :
    ReallocateData E (L ++ ws.map some ++ R) first ws.length (DL ++ xs ++ DR) d_first
      = (L ++ List.replicate ws.length none ++ R, DL ++ ws.map some ++ DR, Status.ok) := by
  unfold ReallocateData
  split
  · rw [uninitialized_move_n_ok E L R DL DR ws xs first d_first h hd hx hmove]
    have := destroy_n_live L R (ws.map E.movedFrom) first h
    simp only [List.map_map, List.length_map] at this
    simp only [Function.comp_def] at this
    simp only [this]
  · rw [uninitialized_copy_n_ok E _ L R DL DR ws xs first d_first rfl h hd hx hcopy]
    simp only [destroy_n_live L R ws first h]


/-! ## Appending -/

theorem replicate_split {β : Type} (m n : Nat) (a : β) (h : n < m) :
    List.replicate m a = List.replicate n a ++ a :: List.replicate (m - n - 1) a := by
  have : m = n + (1 + (m - n - 1)) := by omega
  conv_lhs => rw [this]
  rw [List.replicate_add, List.replicate_add]; rfl

theorem Allocate_ok (E : Env α) (hA : E.NoAllocFailure) (m : Nat) :
    RawMemory.Allocate E m = some (List.replicate m none) := by
  unfold RawMemory.Allocate
  by_cases hm : m = 0
  · simp [hm]
  · simp [hm, hA m]

theorem ofList_snoc (vs : List α) (x : α) (cap : Nat) :
    Vector.ofList (vs ++ [x]) cap
      = { data_ := vs.map some ++ some x :: List.replicate (cap - vs.length - 1) none,
          size_ := vs.length + 1 } := by
  simp [Vector.ofList, Nat.sub_sub]

theorem ofList_Capacity (vs : List α) (cap : Nat) (hcap : vs.length ≤ cap) :
    (Vector.ofList vs cap).Capacity = cap := by
  simp [Vector.ofList, Vector.Capacity, RawMemory.Capacity]; omega

theorem construct_at_replicate (m n : Nat) (x : α) (h : n < m) :
    construct_at (List.replicate m (none : Option α)) n x
      = (List.replicate n none ++ some x :: List.replicate (m - n - 1) none, Status.ok) := by
  unfold construct_at
  simp only [List.length_replicate, h, if_true]
  rw [replicate_split m n none h, set_mid _ _ _ _ _ (by simp)]

theorem EmplaceBack_ok (E : Env α) (hE : E.NoElementFailure) (hA : E.NoAllocFailure)
    (vs : List α) (cap : Nat) (x : α) (hcap : vs.length ≤ cap) :
    EmplaceBack E (ofList vs cap) (some x)
      = (ofList (vs ++ [x])
          (if vs.length = cap then (if vs.length = 0 then 1 else vs.length * 2) else cap),
         Outcome.ret vs.length) := by
  obtain ⟨hcopy, hmove, -, -, -⟩ := hE
  have hlen := ofList_Capacity vs cap hcap
  have hs : (ofList vs cap).size_ = vs.length := rfl
  unfold EmplaceBack
  simp only [hlen, hs]
  by_cases hfull : vs.length = cap
  · subst hfull
    simp only [if_true]
    rw [Allocate_ok E hA]
    have hm : vs.length < (if vs.length = 0 then 1 else vs.length * 2) := by split <;> omega
    generalize (if vs.length = 0 then 1 else vs.length * 2) = m at hm ⊢
    simp only [construct_at_replicate m vs.length x hm]
    have hd : (ofList vs vs.length).data_ = [] ++ vs.map some ++ [] := by
      simp [ofList]
    have hr := ReallocateData_ok E [] [] [] (some x :: List.replicate (m - vs.length - 1) none) vs
      (List.replicate vs.length none) 0 0 rfl rfl (by simp) (fun w _ => hmove w)
      (fun w _ => hcopy w)
    rw [hd, List.nil_append] at *
    simp only [List.nil_append] at hr
    simp only [hr, ofList_snoc]
  · simp only [hfull, if_false]
    have hlt : vs.length < cap := by omega
    have hc : construct_at (ofList vs cap).data_ vs.length x
        = (vs.map some ++ some x :: List.replicate (cap - vs.length - 1) none, Status.ok) := by
      unfold construct_at
      have : vs.length < (ofList vs cap).data_.length := by
        simp [ofList]; omega
      simp only [this, if_true]
      simp only [ofList]
      rw [replicate_split (cap - vs.length) 0 none (by omega), List.replicate_zero, List.nil_append,
        set_mid _ _ _ _ _ (by simp)]
      simp
    simp only [hc, ofList_snoc]


/-! ## Inserting in place and into a doubled block -/

theorem move_assign_slot_ok (E : Env α) (L M R : List (Option α)) (a r : α) (src dst : Nat)
    (hs : src = L.length) (hd : dst = L.length + 1 + M.length)
    (ha : E.moveAssignThrows a = false) :
    move_assign_slot E (L ++ some a :: (M ++ some r :: R)) src dst
      = (L ++ some (E.movedFrom a) :: (M ++ some a :: R), Status.ok) := by
  have h1 : (L ++ some a :: (M ++ some r :: R))[src]? = some (some a) := getElem?_mid _ _ _ _ hs
  have h2 : (L ++ some a :: (M ++ some r :: R))[dst]? = some (some r) := by
    have : L ++ some a :: (M ++ some r :: R) = (L ++ some a :: M) ++ some r :: R := by simp
    rw [this]; exact getElem?_mid _ _ _ _ (by simp [hd]; omega)
  have h3 : (L ++ some a :: (M ++ some r :: R)).set dst (some a)
      = L ++ some a :: (M ++ some a :: R) := by
    have : L ++ some a :: (M ++ some r :: R) = (L ++ some a :: M) ++ some r :: R := by simp
    rw [this, set_mid _ _ _ _ _ (by simp [hd]; omega)]; simp
  unfold move_assign_slot
  simp only [h1, h2, ha, h3]
  rw [set_mid _ _ _ _ _ hs]
  simp

theorem shiftHead_snoc (E : Env α) (l : List α) (a r : α) :
    shiftHead E (l ++ [a]) r = shiftHead E l (E.movedFrom a) := by
  cases l <;> rfl

theorem move_backward_loop_ok (E : Env α) (L R : List (Option α)) (as : List α) (r : α)
    (first d_last : Nat) (hf : first = L.length) (hd : d_last = L.length + as.length + 1)
    (hthrow : ∀ a ∈ as, E.moveAssignThrows a = false) :
    move_backward_loop E first as.length d_last (L ++ as.map some ++ some r :: R)
      = (L ++ some (shiftHead E as r) :: as.map some ++ R, Status.ok) := by
  induction as using List.reverseRecOn generalizing r R d_last with
  | nil => simp [move_backward_loop, shiftHead]
  | append_singleton l a ih =>
    have hpos : 0 < d_last := by omega
    have hstep : move_assign_slot E (L ++ (l ++ [a]).map some ++ some r :: R)
        (first + l.length) (d_last - 1)
          = (L ++ l.map some ++ some (E.movedFrom a) :: some a :: R, Status.ok) := by
      have := move_assign_slot_ok E (L ++ l.map some) [] R a r (first + l.length) (d_last - 1)
        (by simp [hf]) (by simp [hd]; omega) (hthrow a (by simp))
      simpa using this
    simp only [List.length_append, List.length_singleton, move_backward_loop, hpos, if_true, hstep]
    rw [ih (some a :: R) (E.movedFrom a) (d_last - 1) (by simp [hd]; omega)
      (fun b hb => hthrow b (by simp [hb]))]
    simp [shiftHead_snoc]


theorem uninitialized_move_one_within (E : Env α) (L R : List (Option α)) (a : α) (o : Option α)
    (first d_first : Nat) (hf : first = L.length) (hd : d_first = L.length + 1)
    (ha : E.moveThrows a = false) :
    uninitialized_move_n_within E (L ++ some a :: o :: R) first 1 d_first
      = (L ++ some (E.movedFrom a) :: some a :: R, Status.ok) := by
  have h1 : (L ++ some a :: o :: R)[first]? = some (some a) := getElem?_mid _ _ _ _ hf
  have h2 : d_first < (L ++ some a :: o :: R).length := by simp [hd]
  have h3 : (L ++ some a :: o :: R).set d_first (some a) = L ++ some a :: some a :: R := by
    have : L ++ some a :: o :: R = (L ++ [some a]) ++ o :: R := by simp
    rw [this, set_mid _ _ _ _ _ (by simp [hd])]; simp
  simp only [uninitialized_move_n_within, h1, h2, h3, ha, if_true]
  rw [set_mid _ _ _ _ _ hf]
  simp

theorem move_assign_value_ok (E : Env α) (L R : List (Option α)) (a x : α) (dst : Nat)
    (hd : dst = L.length) (hx : E.moveAssignThrows x = false) :
    move_assign_value E (L ++ some a :: R) dst x = (L ++ some x :: R, Status.ok) := by
  have h1 : (L ++ some a :: R)[dst]? = some (some a) := getElem?_mid _ _ _ _ hd
  simp only [move_assign_value, h1, hx]
  rw [set_mid _ _ _ _ _ hd]
  simp

theorem Emplace_inplace_ok (E : Env α) (hE : E.NoElementFailure)
    (pre as : List α) (last x : α) (cap : Nat) (hcap : (pre ++ as ++ [last]).length < cap) :
    Emplace E (ofList (pre ++ as ++ [last]) cap) pre.length (some x)
      = (ofList (pre ++ x :: as ++ [last]) cap, Outcome.ret pre.length) := by
  obtain ⟨-, hmove, -, hassign, -⟩ := hE
  have hlen := ofList_Capacity (pre ++ as ++ [last]) cap (by omega)
  have hs : (ofList (pre ++ as ++ [last]) cap).size_ = pre.length + as.length + 1 := by
    simp [ofList]; omega
  have hdata : (ofList (pre ++ as ++ [last]) cap).data_
      = (pre.map some ++ as.map some) ++ some last :: none
          :: List.replicate (cap - (pre ++ as ++ [last]).length - 1) none := by
    simp only [ofList]
    rw [replicate_split (cap - (pre ++ as ++ [last]).length) 0 none (by omega)]
    simp
  simp only [List.length_append, List.length_singleton] at hcap
  unfold Emplace
  simp only [hlen, hs, hdata]
  have c1 : pre.length ≤ pre.length + as.length + 1 := by omega
  have c2 : ¬ (pre.length = pre.length + as.length + 1) := by omega
  simp only [c1, c2, hcap, if_true, if_false]
  rw [uninitialized_move_one_within E _ _ last none _ _ (by simp) (by simp) (hmove last)]
  have hmb : move_backward E
      (pre.map some ++ as.map some ++ some (E.movedFrom last) :: some last
        :: List.replicate (cap - (pre ++ as ++ [last]).length - 1) none)
      pre.length (pre.length + as.length + 1 - 1) (pre.length + as.length + 1)
      = (pre.map some ++ some (shiftHead E as (E.movedFrom last)) :: as.map some
          ++ some last :: List.replicate (cap - (pre ++ as ++ [last]).length - 1) none,
         Status.ok) := by
    unfold move_backward
    have : pre.length + as.length + 1 - 1 - pre.length = as.length := by omega
    rw [this]
    exact move_backward_loop_ok E (pre.map some) _ as _ _ _ (by simp) (by simp)
      (fun a _ => hassign a)
  simp only [hmb]
  have hv := move_assign_value_ok E (pre.map some)
    (as.map some ++ some last :: List.replicate (cap - (pre ++ as ++ [last]).length - 1) none)
    (shiftHead E as (E.movedFrom last)) x pre.length (by simp) (hassign x)
  simp only [List.cons_append, List.append_assoc] at hv ⊢
  simp only [hv]
  simp [ofList, Nat.sub_sub]
  omega


theorem Emplace_grow_ok (E : Env α) (hE : E.NoElementFailure) (hA : E.NoAllocFailure)
    (pre post : List α) (x : α) (hpost : post ≠ []) :
    Emplace E (ofList (pre ++ post) (pre ++ post).length) pre.length (some x)
      = (ofList (pre ++ x :: post)
          (if (pre ++ post).length = 0 then 1 else (pre ++ post).length * 2),
         Outcome.ret pre.length) := by
  obtain ⟨hcopy, hmove, -, -, -⟩ := hE
  have hlen := ofList_Capacity (pre ++ post) (pre ++ post).length (le_refl _)
  have hs : (ofList (pre ++ post) (pre ++ post).length).size_ = (pre ++ post).length := rfl
  have hdata : (ofList (pre ++ post) (pre ++ post).length).data_
      = [] ++ pre.map some ++ post.map some := by
    simp [ofList]
  have hpl : 0 < post.length := List.length_pos.mpr hpost
  unfold Emplace
  simp only [hlen, hs, hdata]
  have c1 : pre.length ≤ (pre ++ post).length := by simp
  have c2 : ¬ (pre.length = (pre ++ post).length) := by
    simp only [List.length_append]; omega
  simp only [c1, c2, lt_irrefl, if_true, if_false]
  rw [Allocate_ok E hA]
  have hm : (pre ++ post).length < (if (pre ++ post).length = 0 then 1 else (pre ++ post).length * 2) := by
    split <;> omega
  generalize (if (pre ++ post).length = 0 then 1 else (pre ++ post).length * 2) = m at hm ⊢
  simp only [List.length_append] at hm
  simp only [construct_at_replicate m pre.length x (by omega)]
  have hr1 := ReallocateData_ok E [] (post.map some) []
    (some x :: List.replicate (m - pre.length - 1) none) pre
    (List.replicate pre.length none) 0 0 rfl rfl (by simp) (fun w _ => hmove w)
    (fun w _ => hcopy w)
  simp only [List.nil_append] at hr1 ⊢
  simp only [hr1]
  have hsplit : List.replicate (m - pre.length - 1) (none : Option α)
      = List.replicate post.length none
          ++ List.replicate (m - pre.length - 1 - post.length) none := by
    rw [← List.replicate_add]; congr 1; omega
  have hr2 := ReallocateData_ok E (List.replicate pre.length none) []
    (pre.map some ++ [some x]) (List.replicate (m - pre.length - 1 - post.length) none) post
    (List.replicate post.length none) pre.length (pre.length + 1) (by simp) (by simp) (by simp)
    (fun w _ => hmove w) (fun w _ => hcopy w)
  have hcount : (pre ++ post).length - pre.length = post.length := by simp
  rw [hcount, hsplit]
  simp only [List.append_nil, List.nil_append, List.append_assoc, List.singleton_append,
    List.cons_append] at hr2 ⊢
  simp only [hr2]
  simp [ofList]
  omega


/-! ## Erasing -/

theorem move_assign_slot_left (E : Env α) (L R : List (Option α)) (d a : α) (src dst : Nat)
    (hs : src = L.length + 1) (hd : dst = L.length) :
    move_assign_slot E (L ++ some d :: some a :: R) src dst
      = if E.moveAssignThrows a then
          (L ++ some d :: some a :: R, Status.thrown Exn.element_failure)
        else (L ++ some a :: some (E.movedFrom a) :: R, Status.ok) := by
  have h1 : (L ++ some d :: some a :: R)[src]? = some (some a) := by
    have : L ++ some d :: some a :: R = (L ++ [some d]) ++ some a :: R := by simp
    rw [this]; exact getElem?_mid _ _ _ _ (by simp [hs])
  have h2 : (L ++ some d :: some a :: R)[dst]? = some (some d) := getElem?_mid _ _ _ _ hd
  have h3 : (L ++ some d :: some a :: R).set dst (some a) = L ++ some a :: some a :: R :=
    set_mid _ _ _ _ _ hd
  have h4 : (L ++ some a :: some a :: R).set src (some (E.movedFrom a))
      = L ++ some a :: some (E.movedFrom a) :: R := by
    have : L ++ some a :: some a :: R = (L ++ [some a]) ++ some a :: R := by simp
    rw [this, set_mid _ _ _ _ _ (by simp [hs])]; simp
  unfold move_assign_slot
  simp only [h1, h2, h3, h4]

theorem move_loop_ok (E : Env α) (L R : List (Option α)) (as : List α) (d : α)
    (first d_first : Nat) (hf : first = L.length + 1) (hd : d_first = L.length)
    (hthrow : ∀ a ∈ as, E.moveAssignThrows a = false) :
    move_loop E as.length first d_first (L ++ some d :: (as.map some ++ R))
      = (L ++ (as.map some ++ some (shiftLast E as d) :: R), Status.ok) := by
  induction as generalizing L d first d_first with
  | nil => simp [move_loop, shiftLast]
  | cons a as ih =>
    have hstep := move_assign_slot_left E L (as.map some ++ R) d a first d_first hf hd
    rw [hthrow a (by simp)] at hstep
    simp only [Bool.false_eq_true, if_false] at hstep
    simp only [List.length_cons, List.map_cons, List.cons_append, move_loop] at hstep ⊢
    rw [hstep]
    have := ih (L ++ [some a]) (E.movedFrom a) (first + 1) (d_first + 1) (by simp [hf])
      (by simp [hd]) (fun b hb => hthrow b (by simp [hb]))
    simp only [List.append_assoc, List.singleton_append, List.cons_append, List.nil_append]
      at this ⊢
    rw [this]
    simp [shiftLast]

theorem move_loop_throws (E : Env α) (L R : List (Option α)) (as : List α) (d : α)
    (first d_first : Nat) (hf : first = L.length + 1) (hd : d_first = L.length)
    (hthrow : as.any E.moveAssignThrows = true) :
    (move_loop E as.length first d_first (L ++ some d :: (as.map some ++ R))).2
      = Status.thrown Exn.element_failure := by
  induction as generalizing L d first d_first with
  | nil => simp at hthrow
  | cons a as ih =>
    have hstep := move_assign_slot_left E L (as.map some ++ R) d a first d_first hf hd
    simp only [List.length_cons, List.map_cons, List.cons_append, move_loop] at hstep ⊢
    rw [hstep]
    by_cases ha : E.moveAssignThrows a = true
    · simp [ha]
    · have ha0 : E.moveAssignThrows a = false := by simpa using ha
      have hrest : as.any E.moveAssignThrows = true := by
        simpa [List.any_cons, ha0] using hthrow
      simp only [ha0, Bool.false_eq_true, if_false]
      have := ih (L ++ [some a]) (E.movedFrom a) (first + 1) (d_first + 1) (by simp [hf])
        (by simp [hd]) hrest
      simp only [List.append_assoc, List.singleton_append, List.cons_append, List.nil_append]
        at this ⊢
      exact this

theorem Erase_split (E : Env α) (pre as : List α) (d : α) (cap : Nat)
    (hcap : (pre ++ d :: as).length ≤ cap) :
    Erase E (ofList (pre ++ d :: as) cap) pre.length
      = if as.any E.moveAssignThrows then
          ((Erase E (ofList (pre ++ d :: as) cap) pre.length).1, Outcome.thrown Exn.element_failure)
        else (ofList (pre ++ as) cap, Outcome.ret pre.length) := by
  have hs : (ofList (pre ++ d :: as) cap).size_ = pre.length + as.length + 1 := by
    simp [ofList]; omega
  have hdata : (ofList (pre ++ d :: as) cap).data_
      = pre.map some ++ some d :: (as.map some
          ++ List.replicate (cap - (pre ++ d :: as).length) none) := by
    simp [ofList]
  have hcount : pre.length + as.length + 1 - (pre.length + 1) = as.length := by omega
  by_cases hthrow : as.any E.moveAssignThrows = true
  · simp only [hthrow, if_true]
    have h2 := move_loop_throws E (pre.map some)
      (List.replicate (cap - (pre ++ d :: as).length) none) as d (pre.length + 1) pre.length
      (by simp) (by simp) hthrow
    unfold Erase
    simp only [hs, hdata, move_range, hcount] at h2 ⊢
    have c1 : pre.length < pre.length + as.length + 1 := by omega
    simp only [c1, if_true]
    generalize move_loop E as.length (pre.length + 1) pre.length _ = res at h2 ⊢
    obtain ⟨b, st⟩ := res
    simp only at h2
    subst h2
    rfl
  · have hno : ∀ a ∈ as, E.moveAssignThrows a = false := by
      intro a ha
      by_contra hc
      exact hthrow (List.any_eq_true.mpr ⟨a, ha, by simpa using hc⟩)
    simp only [hthrow, if_false]
    have h2 := move_loop_ok E (pre.map some)
      (List.replicate (cap - (pre ++ d :: as).length) none) as d (pre.length + 1) pre.length
      (by simp) (by simp) hno
    unfold Erase
    simp only [hs, hdata, move_range, hcount]
    have c1 : pre.length < pre.length + as.length + 1 := by omega
    simp only [c1, if_true, h2]
    have hp : PopBack (Vector.mk (pre.map some ++ (as.map some ++ some (shiftLast E as d)
          :: List.replicate (cap - (pre ++ d :: as).length) none))
        (pre.length + as.length + 1))
        = (ofList (pre ++ as) cap, Outcome.ret ()) := by
      unfold PopBack
      have hre : pre.map some ++ (as.map some ++ some (shiftLast E as d)
          :: List.replicate (cap - (pre ++ d :: as).length) none)
          = (pre.map some ++ as.map some) ++ some (shiftLast E as d)
          :: List.replicate (cap - (pre ++ d :: as).length) none := by simp
      rw [hre]
      have h1 : ((pre.map some ++ as.map some) ++ some (shiftLast E as d)
          :: List.replicate (cap - (pre ++ d :: as).length) none)[pre.length + as.length + 1 - 1]?
          = some (some (shiftLast E as d)) := getElem?_mid _ _ _ _ (by simp)
      simp only [destroy_at, h1, Nat.zero_lt_succ, if_true]
      rw [set_mid _ _ _ _ _ (by simp)]
      simp only [ofList, List.length_append, List.length_cons] at hcap ⊢
      simp only [List.map_append, Nat.add_sub_cancel, Prod.mk.injEq, Vector.mk.injEq, and_true]
      rw [replicate_split (cap - (pre.length + as.length)) 0 none (by omega)]
      simp
      omega
    simp only [hp]
    simp

/-! ## Insertion and erasure (C1, C2) -/

theorem intEnv_noElementFailure : intEnv.NoElementFailure :=
  ⟨fun _ => rfl, fun _ => rfl, fun _ => rfl, fun _ => rfl, rfl⟩

theorem intEnv_noAllocFailure : intEnv.NoAllocFailure := fun _ => rfl

theorem Emplace_ok (E : Env α) (hE : E.NoElementFailure) (hA : E.NoAllocFailure)
    (vs : List α) (cap i : Nat) (x : α) (hcap : vs.length ≤ cap) (hi : i ≤ vs.length) :
    Emplace E (ofList vs cap) i (some x)
      = (ofList (vs.take i ++ x :: vs.drop i)
          (if vs.length < cap then cap else if vs.length = 0 then 1 else vs.length * 2),
         Outcome.ret i) := by
  by_cases hend : i = vs.length
  · subst hend
    have hb := EmplaceBack_ok E hE hA vs cap x hcap
    have hs : (ofList vs cap).size_ = vs.length := rfl
    unfold Emplace
    simp only [hs, le_refl, if_true, hb]
    simp only [List.take_length, List.drop_length]
    have : (ofList (vs ++ [x]) (if vs.length = cap then if vs.length = 0 then 1 else vs.length * 2
        else cap)).size_ - 1 = vs.length := by simp [ofList]
    rw [this]
    by_cases hfull : vs.length = cap
    · simp [hfull]
    · have : vs.length < cap := by omega
      simp [hfull, this]
  · have hlt : i < vs.length := by omega
    by_cases hfull : vs.length < cap
    · obtain ⟨as, last, hsplit⟩ : ∃ as last, vs.drop i = as ++ [last] := by
        have hne : vs.drop i ≠ [] := by
          intro h0
          have := congrArg List.length h0
          simp at this; omega
        exact ⟨(vs.drop i).dropLast, (vs.drop i).getLast hne,
          (List.dropLast_append_getLast hne).symm⟩
      have hvs : vs = vs.take i ++ as ++ [last] := by
        rw [List.append_assoc, ← hsplit, List.take_append_drop]
      have hpl : (vs.take i).length = i := by simp; omega
      have := Emplace_inplace_ok E hE (vs.take i) as last x cap (by rw [← hvs]; exact hfull)
      rw [← hvs, hpl] at this
      rw [this, hsplit]
      simp [hfull]
    · have hcapeq : cap = vs.length := by omega
      subst hcapeq
      have hne : vs.drop i ≠ [] := by
        intro h0
        have := congrArg List.length h0
        simp at this; omega
      have hpl : (vs.take i).length = i := by simp; omega
      have := Emplace_grow_ok E hE hA (vs.take i) (vs.drop i) x hne
      rw [List.take_append_drop, hpl] at this
      rw [this]
      simp

/-- C1: with no failing element operation, `Emplace`/`Insert` at index `i ≤ n`
of a vector holding `vs` yields `vs.take i ++ x :: vs.drop i` (size `n + 1`)
and returns the index `i`, whether it appends, shifts in place or
reallocates to the doubled block. -/
theorem emplace_inserts_at_index (E : Env α) (hE : E.NoElementFailure) (hA : E.NoAllocFailure)
    (vs : List α) (cap i : Nat) (x : α) (hcap : vs.length ≤ cap) (hi : i ≤ vs.length) :
    Emplace E (ofList vs cap) i (some x)
        = (ofList (vs.take i ++ x :: vs.drop i)
            (if vs.length < cap then cap else if vs.length = 0 then 1 else vs.length * 2),
           Outcome.ret i)
      ∧ Insert E (ofList vs cap) i x = Emplace E (ofList vs cap) i (some x)
      ∧ InsertMove E (ofList vs cap) i x = Emplace E (ofList vs cap) i (some x)
      ∧ (ofList (vs.take i ++ x :: vs.drop i)
            (if vs.length < cap then cap else if vs.length = 0 then 1 else vs.length * 2)).Size
          = vs.length + 1 := by
  refine ⟨?_, ?_, ?_, ?_⟩
  · exact Emplace_ok E hE hA vs cap i x hcap hi
  · simp [Vector.Insert, hE.1 x]
  · simp [Vector.InsertMove, hE.2.1 x]
  · simp [ofList, Size]
    omega

theorem emplace_inserts_at_index_witness :
    Emplace intEnv (ofList [1, 2, 3] 3) 1 (some 9)
        = (ofList ([1, 2, 3].take 1 ++ 9 :: [1, 2, 3].drop 1)
            (if [1, 2, 3].length < 3 then 3 else if [1, 2, 3].length = 0 then 1
              else [1, 2, 3].length * 2),
           Outcome.ret 1)
      ∧ Insert intEnv (ofList [1, 2, 3] 3) 1 9 = Emplace intEnv (ofList [1, 2, 3] 3) 1 (some 9)
      ∧ InsertMove intEnv (ofList [1, 2, 3] 3) 1 9
          = Emplace intEnv (ofList [1, 2, 3] 3) 1 (some 9)
      ∧ (ofList ([1, 2, 3].take 1 ++ 9 :: [1, 2, 3].drop 1)
            (if [1, 2, 3].length < 3 then 3 else if [1, 2, 3].length = 0 then 1
              else [1, 2, 3].length * 2)).Size
          = [1, 2, 3].length + 1 :=
  emplace_inserts_at_index intEnv intEnv_noElementFailure intEnv_noAllocFailure
    [1, 2, 3] 3 1 9 (by decide) (by decide)

/-- C2: `Erase` at index `i < n` of a vector holding `vs` yields `vs` without
its `i`-th element (size `n - 1`) in the same block capacity and returns the
index `i`, which now designates the former element `i + 1` (or the end). It
completes whenever no move assignment of a shifted element throws, and
whenever it completes this is its result. -/
theorem erase_removes_index (E : Env α) (vs : List α) (cap i : Nat)
    (hcap : vs.length ≤ cap) (hi : i < vs.length) :
    ((∀ a ∈ vs.drop (i + 1), E.moveAssignThrows a = false) →
        Erase E (ofList vs cap) i = (ofList (vs.eraseIdx i) cap, Outcome.ret i))
      ∧ (∀ v1 r, Erase E (ofList vs cap) i = (v1, Outcome.ret r) →
          v1 = ofList (vs.eraseIdx i) cap ∧ r = i)
      ∧ (ofList (vs.eraseIdx i) cap).Size = vs.length - 1
      ∧ (ofList (vs.eraseIdx i) cap).Capacity = (ofList vs cap).Capacity
      ∧ (vs.eraseIdx i)[i]? = vs[i + 1]? := by
  have hd : vs.drop i = vs[i] :: vs.drop (i + 1) := List.drop_eq_getElem_cons hi
  have hvs : vs = vs.take i ++ vs[i] :: vs.drop (i + 1) := by
    rw [← hd, List.take_append_drop]
  have hpl : (vs.take i).length = i := by simp; omega
  have herase : vs.eraseIdx i = vs.take i ++ vs.drop (i + 1) := List.eraseIdx_eq_take_drop_succ vs i
  have hsplit := Erase_split E (vs.take i) (vs.drop (i + 1)) vs[i] cap (by rw [← hvs]; exact hcap)
  rw [← hvs, hpl, ← herase] at hsplit
  have hlen : (vs.eraseIdx i).length = vs.length - 1 := List.length_eraseIdx_of_lt hi
  refine ⟨?_, ?_, ?_, ?_, ?_⟩
  · intro hno
    have : (vs.drop (i + 1)).any E.moveAssignThrows = false := by
      rw [List.any_eq_false]
      intro a ha
      simp [hno a ha]
    rw [hsplit, this]
    simp
  · intro v1 r hret
    rw [hsplit] at hret
    split at hret
    · simp at hret
    · simp only [Prod.mk.injEq, Outcome.ret.injEq] at hret
      exact ⟨hret.1.symm, hret.2.symm⟩
  · simp [ofList, Size, hlen]
  · rw [ofList_Capacity _ _ hcap, ofList_Capacity _ _ (by omega)]
  · rw [List.getElem?_eraseIdx_of_ge _ _ _ (le_refl i)]

theorem erase_removes_index_witness :
    Erase intEnv (ofList [1, 2, 3, 4] 6) 1 = (ofList [1, 3, 4] 6, Outcome.ret 1) :=
  (erase_removes_index intEnv [1, 2, 3, 4] 6 1 (by decide) (by decide)).1 (fun _ _ => rfl)

/-! ## A failing relocation during growth (C3, C4) -/

/-- C3: a full vector `[7, 13]` whose element copy constructor throws on `13`:
`EmplaceBack(5)` grows, the relocation throws, the handler destroys the last
object of the OLD block and swallows the exception; the call returns normally
with size 3, capacity 4 and raw slots where `7` and `13` were. -/
theorem emplaceBack_swallows_relocation_failure :
    EmplaceBack throwingCopyEnv (ofList [7, 13] 2) (some 5)
        = ({ data_ := [none, none, some 5, none], size_ := 3 }, Outcome.ret 2)
      ∧ (ReallocateData throwingCopyEnv (ofList [7, 13] 2).data_ 0 2 [none, none, some 5, none] 0).2.2
          = Status.thrown Exn.element_failure
      ∧ PushBack throwingCopyEnv (ofList [7, 13] 2) 5
        = ({ data_ := [none, none, some 5, none], size_ := 3 }, Outcome.ret ()) := by
  decide

/-- C4: a full vector whose element copy constructor throws on `13`.
`Emplace(begin() + 1, 5)` into `[13, 7]`: relocating the first half throws, the
handler destroys the new element and swallows the exception, the second half
is relocated and the call returns normally with size 3 and only `7` alive.
`Emplace(begin(), 5)` into `[7, 13]`: relocating the second half throws, the
handler empties the new block and swallows the exception, and the call returns
normally with size 3 over a block of raw slots. -/
theorem emplace_swallows_relocation_failure :
    Emplace throwingCopyEnv (ofList [13, 7] 2) 1 (some 5)
        = ({ data_ := [none, none, some 7, none], size_ := 3 }, Outcome.ret 1)
      ∧ Emplace throwingCopyEnv (ofList [7, 13] 2) 0 (some 5)
        = ({ data_ := [none, none, none, none], size_ := 3 }, Outcome.ret 0) := by
  decide

/-! ## A failing relocation during `Reserve` (C5) -/

theorem ReallocateData_copy_path (E : Env α) (L R DL DR : List (Option α))
    (ws : List α) (first d_first : Nat)
    (hpath : (E.is_nothrow_move_constructible || !E.is_copy_constructible) = false)
    (h : first = L.length) (hd : d_first = DL.length) :
    ReallocateData E (L ++ ws.map some ++ R) first ws.length
        (DL ++ List.replicate ws.length none ++ DR) d_first
      = if ws.any E.copyThrows then
          (L ++ ws.map some ++ R, DL ++ List.replicate ws.length none ++ DR,
            Status.thrown Exn.element_failure)
        else (L ++ List.replicate ws.length none ++ R, DL ++ ws.map some ++ DR, Status.ok) := by
  unfold ReallocateData
  simp only [hpath, Bool.false_eq_true, if_false]
  by_cases hthrow : ws.any E.copyThrows = true
  · rw [uninitialized_copy_n_throws E _ L R DL DR ws first d_first rfl h hd hthrow]
    simp [hthrow]
  · have hno : ∀ w ∈ ws, E.copyThrows w = false := by
      intro w hw
      by_contra hc
      exact hthrow (List.any_eq_true.mpr ⟨w, hw, by simpa using hc⟩)
    rw [uninitialized_copy_n_ok E _ L R DL DR ws _ first d_first rfl h hd (by simp) hno]
    simp only [destroy_n_live L R ws first h, hthrow, if_false]
    simp

theorem ReallocateData_move_path_ok (E : Env α) (L R DL DR : List (Option α))
    (ws : List α) (xs : List (Option α)) (first d_first : Nat)
    (hpath : (E.is_nothrow_move_constructible || !E.is_copy_constructible) = true)
    (h : first = L.length) (hd : d_first = DL.length) (hx : xs.length = ws.length)
    (hmove : ∀ w ∈ ws, E.moveThrows w = false) :
    ReallocateData E (L ++ ws.map some ++ R) first ws.length (DL ++ xs ++ DR) d_first
      = (L ++ List.replicate ws.length none ++ R, DL ++ ws.map some ++ DR, Status.ok) := by
  unfold ReallocateData
  simp only [hpath, if_true]
  rw [uninitialized_move_n_ok E L R DL DR ws xs first d_first h hd hx hmove]
  have := destroy_n_live L R (ws.map E.movedFrom) first h
  simp only [List.map_map, List.length_map] at this
  simp only [Function.comp_def] at this
  simp only [this]

theorem ofList_data_nil (vs : List α) (cap : Nat) :
    (ofList vs cap).data_ = [] ++ vs.map some ++ List.replicate (cap - vs.length) none := by
  simp [ofList]

theorem Allocate_pos (E : Env α) (n : Nat) (hn : 0 < n) :
    RawMemory.Allocate E n = if E.allocOk n then some (List.replicate n none) else none := by
  unfold RawMemory.Allocate
  have : n ≠ 0 := by omega
  simp [this]

/-- C5 (amended): when the element type is copy-constructible, a `Reserve`
beyond the capacity that ends with an exception leaves the vector exactly as it
was, and if the exception came out of the relocation, the new block is back to
raw slots (what had been copied into it is destroyed) and the old block is
untouched. Such a failing relocation exists: it happens as soon as the type
is not nothrow-move-constructible and the copy of some element throws. -/
theorem reserve_failure_leaves_vector (E : Env α) (hcopyable : E.is_copy_constructible = true)
    (vs : List α) (cap n : Nat) (hcap : vs.length ≤ cap) (hn : cap < n) :
    (∀ e, (Reserve E (ofList vs cap) n).2 = Outcome.thrown e →
        (Reserve E (ofList vs cap) n).1 = ofList vs cap
        ∧ (e = Exn.element_failure →
            ReallocateData E (ofList vs cap).data_ 0 vs.length (List.replicate n none) 0
              = ((ofList vs cap).data_, List.replicate n none,
                  Status.thrown Exn.element_failure)))
      ∧ (E.is_nothrow_move_constructible = false → E.allocOk n = true →
          vs.any E.copyThrows = true →
          Reserve E (ofList vs cap) n = (ofList vs cap, Outcome.thrown Exn.element_failure)) := by
  have hC := ofList_Capacity vs cap hcap
  have hs : (ofList vs cap).size_ = vs.length := rfl
  have hnle : ¬ n ≤ cap := by omega
  have hsplit : List.replicate n (none : Option α)
      = [] ++ List.replicate vs.length none ++ List.replicate (n - vs.length) none := by
    rw [List.nil_append, ← List.replicate_add]; congr 1; omega
  have hR : Reserve E (ofList vs cap) n
      = if E.allocOk n then
          (if E.is_nothrow_move_constructible = false ∧ vs.any E.copyThrows = true then
            (ofList vs cap, Outcome.thrown Exn.element_failure)
           else (ofList vs n, Outcome.ret ()))
        else (ofList vs cap, Outcome.thrown Exn.bad_alloc) := by
    unfold Reserve
    simp only [hC, hnle, if_false, hs, Allocate_pos E n (by omega)]
    by_cases hA : E.allocOk n = true
    · simp only [hA, if_true]
      rw [ofList_data_nil, hsplit]
      by_cases hnt : E.is_nothrow_move_constructible = true
      · rw [ReallocateData_move_path_ok E [] _ [] _ vs _ 0 0 (by simp [hnt]) rfl rfl (by simp)
          (fun w _ => E.nothrow_move_sound hnt w)]
        simp [hnt, ofList]
      · have hnt0 : E.is_nothrow_move_constructible = false := by simpa using hnt
        rw [ReallocateData_copy_path E [] _ [] _ vs 0 0 (by simp [hnt0, hcopyable]) rfl rfl]
        by_cases hthrow : vs.any E.copyThrows = true
        · simp only [hthrow, hnt0, if_true, and_self]
          simp [ofStatus, ofList]
        · simp [hthrow, ofList]
    · simp [hA]
  refine ⟨?_, ?_⟩
  · intro e he
    rw [hR] at he ⊢
    by_cases hA : E.allocOk n = true
    · simp only [hA, if_true] at he ⊢
      by_cases hc : E.is_nothrow_move_constructible = false ∧ vs.any E.copyThrows = true
      · simp only [hc, and_self, if_true] at he ⊢
        refine ⟨trivial, fun _ => ?_⟩
        rw [ofList_data_nil, hsplit]
        rw [ReallocateData_copy_path E [] _ [] _ vs 0 0 (by simp [hc.1, hcopyable]) rfl rfl]
        simp [hc.2]
      · rw [if_neg hc] at he
        simp at he
    · simp only [hA, Bool.false_eq_true, if_false] at he ⊢
      simp only [Outcome.thrown.injEq] at he
      subst he
      simp
  · intro hnt hA hthrow
    rw [hR]
    simp [hA, hnt, hthrow]

theorem reserve_failure_leaves_vector_witness :
    Reserve throwingCopyEnv (ofList [7, 13] 2) 5
      = (ofList [7, 13] 2, Outcome.thrown Exn.element_failure) :=
  (reserve_failure_leaves_vector throwingCopyEnv rfl [7, 13] 2 5 (by decide) (by decide)).2
    rfl rfl (by decide)

/-- C5 as stated fails for an element type that is not copy-constructible and
whose move constructor throws on `13` (a moved-from object holds `0`):
`Reserve(5)` on `[7, 13]` moves `7` out, fails on `13`, and the exception leaves
the vector holding `[0, 13]`. -/
theorem reserve_move_failure_changes_elements :
    Reserve throwingMoveEnv (ofList [7, 13] 2) 5
        = ({ data_ := [some 0, some 13], size_ := 2 }, Outcome.thrown Exn.element_failure)
      ∧ (Reserve throwingMoveEnv (ofList [7, 13] 2) 5).1 ≠ ofList [7, 13] 2 := by
  decide

/-! ## No memory routine changes the number of slots of a block -/

theorem construct_at_length (b : RawMemory α) (i : Nat) (x : α) :
    (construct_at b i x).1.length = b.length := by
  unfold construct_at; split <;> simp

theorem destroy_at_length (b : RawMemory α) (i : Nat) :
    (destroy_at b i).1.length = b.length := by
  unfold destroy_at; split <;> simp

theorem destroy_n_length (b : RawMemory α) (first n : Nat) :
    (destroy_n b first n).1.length = b.length := by
  induction n generalizing b first with
  | zero => simp [destroy_n]
  | succ n ih =>
    have h := destroy_at_length b first
    unfold destroy_n
    split
    · next b1 heq => rw [ih]; rw [heq] at h; exact h
    · exact h

theorem uninitialized_copy_n_length (E : Env α) (src : RawMemory α) (first n : Nat)
    (dst : RawMemory α) (d_first : Nat) :
    (uninitialized_copy_n E src first n dst d_first).1.length = dst.length := by
  induction n generalizing first dst d_first with
  | zero => simp [uninitialized_copy_n]
  | succ n ih =>
    unfold uninitialized_copy_n
    split
    · next v _ =>
      split
      · split
        · rfl
        · have h := ih (first + 1) (dst.set d_first (some v)) (d_first + 1)
          split
          · next heq => rw [heq] at h; simpa using h
          · next heq => rw [heq] at h; simpa using h
      · rfl
    · rfl

theorem uninitialized_move_n_length (E : Env α) (src : RawMemory α) (first n : Nat)
    (dst : RawMemory α) (d_first : Nat) :
    (uninitialized_move_n E src first n dst d_first).1.length = src.length
      ∧ (uninitialized_move_n E src first n dst d_first).2.1.length = dst.length := by
  induction n generalizing src first dst d_first with
  | zero => simp [uninitialized_move_n]
  | succ n ih =>
    unfold uninitialized_move_n
    split
    · next v _ =>
      split
      · split
        · exact ⟨rfl, rfl⟩
        · have h := ih (src.set first (some (E.movedFrom v))) (first + 1)
            (dst.set d_first (some v)) (d_first + 1)
          split
          · next heq => rw [heq] at h; simpa using h
          · next heq => rw [heq] at h; simpa using h
      · exact ⟨rfl, rfl⟩
    · exact ⟨rfl, rfl⟩

theorem uninitialized_move_n_within_length (E : Env α) (b : RawMemory α) (first n d_first : Nat) :
    (uninitialized_move_n_within E b first n d_first).1.length = b.length := by
  induction n generalizing b first d_first with
  | zero => simp [uninitialized_move_n_within]
  | succ n ih =>
    unfold uninitialized_move_n_within
    split
    · next v _ =>
      split
      · split
        · rfl
        · have h := ih ((b.set d_first (some v)).set first (some (E.movedFrom v))) (first + 1)
            (d_first + 1)
          split
          · next heq => rw [heq] at h; simpa using h
          · next heq => rw [heq] at h; simpa using h
      · rfl
    · rfl

theorem uninitialized_value_construct_n_length (E : Env α) (b : RawMemory α) (first n : Nat) :
    (uninitialized_value_construct_n E b first n).1.length = b.length := by
  induction n generalizing b first with
  | zero => simp [uninitialized_value_construct_n]
  | succ n ih =>
    unfold uninitialized_value_construct_n
    split
    · split
      · rfl
      · have h := ih (b.set first (some E.valueInit)) (first + 1)
        split
        · next heq => rw [heq] at h; simpa using h
        · next heq => rw [heq] at h; simpa using h
    · rfl

theorem move_assign_slot_length (E : Env α) (b : RawMemory α) (src dst : Nat) :
    (move_assign_slot E b src dst).1.length = b.length := by
  unfold move_assign_slot
  split
  · split <;> simp
  · rfl

theorem move_assign_value_length (E : Env α) (b : RawMemory α) (dst : Nat) (x : α) :
    (move_assign_value E b dst x).1.length = b.length := by
  unfold move_assign_value
  split
  · split <;> simp
  · rfl

theorem move_backward_loop_length (E : Env α) (first count d_last : Nat) (b : RawMemory α) :
    (move_backward_loop E first count d_last b).1.length = b.length := by
  induction count generalizing d_last b with
  | zero => simp [move_backward_loop]
  | succ n ih =>
    have h := move_assign_slot_length E b (first + n) (d_last - 1)
    unfold move_backward_loop
    split
    · split
      · next b1 heq => rw [ih]; rw [heq] at h; exact h
      · exact h
    · rfl

theorem move_loop_length (E : Env α) (count first d_first : Nat) (b : RawMemory α) :
    (move_loop E count first d_first b).1.length = b.length := by
  induction count generalizing first d_first b with
  | zero => simp [move_loop]
  | succ n ih =>
    have h := move_assign_slot_length E b first d_first
    unfold move_loop
    split
    · next b1 heq => rw [ih]; rw [heq] at h; exact h
    · exact h

theorem copy_n_assign_length (E : Env α) (src : RawMemory α) (first n : Nat)
    (dst : RawMemory α) (d_first : Nat) :
    (copy_n_assign E src first n dst d_first).1.length = dst.length := by
  induction n generalizing first dst d_first with
  | zero => simp [copy_n_assign]
  | succ n ih =>
    unfold copy_n_assign
    split
    · split
      · rfl
      · rw [ih]; simp
    · rfl

theorem ReallocateData_length (E : Env α) (src : RawMemory α) (first count : Nat)
    (dst : RawMemory α) (d_first : Nat) :
    (ReallocateData E src first count dst d_first).1.length = src.length
      ∧ (ReallocateData E src first count dst d_first).2.1.length = dst.length := by
  unfold ReallocateData
  split
  · have h := uninitialized_move_n_length E src first count dst d_first
    split
    · next s d heq =>
      rw [heq] at h
      have h2 := destroy_n_length s first count
      simp only at h ⊢
      exact ⟨by rw [h2]; exact h.1, h.2⟩
    · exact h
  · have h := uninitialized_copy_n_length E src first count dst d_first
    split
    · next d heq =>
      rw [heq] at h
      have h2 := destroy_n_length src first count
      exact ⟨h2, h⟩
    · next d st _ heq =>
      rw [heq] at h
      exact ⟨rfl, h⟩

/-! ## Size and capacity after each member function -/

theorem Allocate_length (E : Env α) (n : Nat) (b : RawMemory α)
    (h : RawMemory.Allocate E n = some b) : b.length = n := by
  unfold RawMemory.Allocate at h
  split at h
  · next h0 => simp at h; subst h; simp [h0]
  · split at h
    · simp at h; subst h; simp
    · simp at h

theorem ReallocateData_cases (E : Env α) (src : RawMemory α) (first count : Nat)
    (dst : RawMemory α) (d_first : Nat) :
    ∃ od nd st, ReallocateData E src first count dst d_first = (od, nd, st)
      ∧ od.length = src.length ∧ nd.length = dst.length :=
  ⟨_, _, _, rfl, (ReallocateData_length E src first count dst d_first).1,
    (ReallocateData_length E src first count dst d_first).2⟩

theorem Reserve_shape (E : Env α) (v : Vector α) (n : Nat) :
    (Reserve E v n).1.size_ = v.size_
      ∧ ((Reserve E v n).1.Capacity = v.Capacity
          ∨ ((Reserve E v n).2 = Outcome.ret () ∧ v.Capacity < n
              ∧ (Reserve E v n).1.Capacity = n))
      ∧ ((Reserve E v n).2 = Outcome.ret () → (Reserve E v n).1.Capacity = max v.Capacity n) := by
  unfold Reserve
  by_cases hle : n ≤ v.Capacity
  · simp [hle]
  · simp only [hle, if_false]
    cases hal : RawMemory.Allocate E n with
    | none => simp
    | some new_data =>
      have hlen := Allocate_length E n new_data hal
      obtain ⟨od, nd, st, hr, h1, h2⟩ := ReallocateData_cases E v.data_ 0 v.size_ new_data 0
      simp only [hr]
      simp only [Capacity, RawMemory.Capacity] at hle ⊢
      cases st with
      | ok =>
        simp [h2, hlen]
        omega
      | thrown e => simp [h1, ofStatus]
      | undefined => simp [h1, ofStatus]

theorem PopBack_shape (v : Vector α) :
    ((PopBack v).2 = Outcome.ret () ∧ 0 < v.size_ ∧ (PopBack v).1.size_ = v.size_ - 1
        ∧ (PopBack v).1.Capacity = v.Capacity)
      ∨ ((PopBack v).2 ≠ Outcome.ret () ∧ (PopBack v).1.size_ = v.size_
        ∧ (PopBack v).1.Capacity = v.Capacity) := by
  unfold PopBack
  by_cases hpos : 0 < v.size_
  · simp only [hpos, if_true]
    obtain ⟨d, st, hr, hl⟩ : ∃ d st, destroy_at v.data_ (v.size_ - 1) = (d, st)
        ∧ d.length = v.data_.length := ⟨_, _, rfl, destroy_at_length _ _⟩
    simp only [hr, Capacity, RawMemory.Capacity]
    cases st <;> simp [hl, ofStatus]
  · simp [hpos]

theorem EmplaceBack_shape (E : Env α) (v : Vector α) (args : Option α) :
    ((EmplaceBack E v args).2 = Outcome.ret v.size_
        ∧ (EmplaceBack E v args).1.size_ = v.size_ + 1
        ∧ v.size_ ≤ v.Capacity
        ∧ (EmplaceBack E v args).1.Capacity
            = if v.size_ = v.Capacity then (if v.size_ = 0 then 1 else v.size_ * 2)
              else v.Capacity)
      ∨ ((∀ i, (EmplaceBack E v args).2 ≠ Outcome.ret i)
        ∧ (EmplaceBack E v args).1.size_ = v.size_
        ∧ (EmplaceBack E v args).1.Capacity = v.Capacity) := by
  unfold EmplaceBack
  simp only [Capacity, RawMemory.Capacity]
  by_cases hfull : v.size_ = v.data_.length
  · simp only [hfull, if_true]
    cases hal : RawMemory.Allocate E (if v.data_.length = 0 then 1 else v.data_.length * 2) with
    | none => simp [hfull]
    | some new_data =>
      have hlen := Allocate_length E _ new_data hal
      cases args with
      | none => simp [hfull]
      | some x =>
        simp only
        obtain ⟨nd0, st0, hr0, hl0⟩ : ∃ d st, construct_at new_data v.data_.length x = (d, st)
            ∧ d.length = new_data.length := ⟨_, _, rfl, construct_at_length _ _ _⟩
        simp only [hr0]
        cases st0 with
        | ok =>
          simp only
          obtain ⟨od, nd, st, hr, h1, h2⟩ :=
            ReallocateData_cases E v.data_ 0 v.data_.length nd0 0
          simp only [hr]
          cases st with
          | ok => simp [h2, hl0, hlen]
          | undefined => simp [h1, ofStatus]
          | thrown e =>
            simp only
            by_cases hpos : 0 < v.data_.length
            · simp only [hpos, if_true]
              obtain ⟨od1, st1, hr1, hl1⟩ : ∃ d st, destroy_at od (v.data_.length - 1) = (d, st)
                  ∧ d.length = od.length := ⟨_, _, rfl, destroy_at_length _ _⟩
              simp only [hr1]
              cases st1 with
              | ok => simp [h2, hl0, hlen]
              | undefined => simp [h1, hl1, ofStatus]
              | thrown e => simp [h1, hl1, ofStatus]
            · simp [hpos, h1, ofStatus]
        | undefined => simp [ofStatus, hfull]
        | thrown e => simp [ofStatus, hfull]
  · simp only [hfull, if_false]
    cases args with
    | none => simp
    | some x =>
      simp only
      have hc : construct_at v.data_ v.size_ x
          = if v.size_ < v.data_.length then (v.data_.set v.size_ (some x), Status.ok)
            else (v.data_, Status.undefined) := rfl
      rw [hc]
      by_cases hlt : v.size_ < v.data_.length
      · simp [hlt]
        omega
      · simp [hlt, ofStatus]

theorem Erase_shape (E : Env α) (v : Vector α) (index : Nat) :
    ((Erase E v index).2 = Outcome.ret index ∧ index < v.size_
        ∧ (Erase E v index).1.size_ = v.size_ - 1
        ∧ (Erase E v index).1.Capacity = v.Capacity)
      ∨ ((∀ i, (Erase E v index).2 ≠ Outcome.ret i) ∧ (Erase E v index).1.size_ = v.size_
        ∧ (Erase E v index).1.Capacity = v.Capacity) := by
  unfold Erase
  by_cases hlt : index < v.size_
  · simp only [hlt, if_true]
    obtain ⟨d, st, hr, hl⟩ : ∃ d st, move_range E v.data_ (index + 1) v.size_ index = (d, st)
        ∧ d.length = v.data_.length := ⟨_, _, rfl, move_loop_length _ _ _ _ _⟩
    simp only [hr]
    cases st with
    | ok =>
      simp only
      have hp := PopBack_shape (Vector.mk d v.size_)
      generalize PopBack (Vector.mk d v.size_) = r at hp
      obtain ⟨v1, o⟩ := r
      simp only [Capacity, RawMemory.Capacity] at hp ⊢
      cases o with
      | ret u => simp_all
      | thrown e => simp_all
      | undefined => simp_all
    | thrown e => simp [Capacity, RawMemory.Capacity, hl, ofStatus]
    | undefined => simp [Capacity, RawMemory.Capacity, hl, ofStatus]
  · simp [hlt]

theorem Emplace_shape (E : Env α) (v : Vector α) (index : Nat) (args : Option α) :
    ((Emplace E v index args).2 = Outcome.ret index ∧ index ≤ v.size_
        ∧ (Emplace E v index args).1.size_ = v.size_ + 1
        ∧ (Emplace E v index args).1.Capacity
            = if v.size_ < v.Capacity then v.Capacity
              else (if v.size_ = 0 then 1 else v.size_ * 2))
      ∨ ((∀ i, (Emplace E v index args).2 ≠ Outcome.ret i)
        ∧ (Emplace E v index args).1.size_ = v.size_
        ∧ (Emplace E v index args).1.Capacity = v.Capacity) := by
  unfold Emplace
  simp only [Capacity, RawMemory.Capacity]
  by_cases hle : index ≤ v.size_
  · simp only [hle, if_true]
    by_cases hend : index = v.size_
    · simp only [hend, if_true]
      have hb := EmplaceBack_shape E v args
      generalize EmplaceBack E v args = r at hb
      obtain ⟨v1, o⟩ := r
      simp only [Capacity, RawMemory.Capacity] at hb
      cases o with
      | ret u =>
        simp only [Outcome.ret.injEq, ne_eq, forall_eq', not_true_eq_false, false_and,
          or_false] at hb
        obtain ⟨h1, h2, h3, h4⟩ := hb
        left
        simp only [h2, h4]
        refine ⟨by simp, trivial, ?_⟩
        by_cases hf : v.size_ = v.data_.length
        · simp [hf]
        · have : v.size_ < v.data_.length := by omega
          simp [hf, this]
      | thrown e => simp_all
      | undefined => simp_all
    · simp only [hend, if_false]
      by_cases hroom : v.size_ < v.data_.length
      · simp only [hroom, if_true]
        cases args with
        | none => simp
        | some value =>
          simp only
          obtain ⟨d1, st1, hr1, hl1⟩ : ∃ d st,
              uninitialized_move_n_within E v.data_ (v.size_ - 1) 1 v.size_ = (d, st)
              ∧ d.length = v.data_.length :=
            ⟨_, _, rfl, uninitialized_move_n_within_length E v.data_ (v.size_ - 1) 1 v.size_⟩
          simp only [hr1]
          cases st1 with
          | ok =>
            simp only
            obtain ⟨d2, st2, hr2, hl2⟩ : ∃ d st,
                move_backward E d1 index (v.size_ - 1) v.size_ = (d, st)
                ∧ d.length = d1.length := ⟨_, _, rfl, move_backward_loop_length _ _ _ _ _⟩
            simp only [hr2]
            have hfin : ∀ d3 : RawMemory α, d3.length = v.data_.length →
                Shape v (match move_assign_value E d3 index value with
                  | (d4, Status.ok) => (Vector.mk d4 (v.size_ + 1), Outcome.ret index)
                  | (d4, st) => (Vector.mk d4 v.size_, ofStatus st index))
                  index (v.size_ + 1) v.data_.length := by
              intro d3 hd3
              obtain ⟨d4, st4, hr4, hl4⟩ : ∃ d st, move_assign_value E d3 index value = (d, st)
                  ∧ d.length = d3.length := ⟨_, _, rfl, move_assign_value_length _ _ _ _⟩
              simp only [hr4, Shape]
              cases st4 <;> simp [hl4, hd3, ofStatus]
            cases st2 with
            | ok => simpa [Shape] using hfin d2 (by rw [hl2, hl1])
            | undefined => simp [hl2, hl1, ofStatus]
            | thrown e =>
              simp only
              obtain ⟨d3, st3, hr3, hl3⟩ : ∃ d st, destroy_at d2 (v.size_ - 1) = (d, st)
                  ∧ d.length = d2.length := ⟨_, _, rfl, destroy_at_length _ _⟩
              simp only [hr3]
              cases st3 with
              | ok => simpa [Shape] using hfin d3 (by rw [hl3, hl2, hl1])
              | undefined => simp [hl3, hl2, hl1, ofStatus]
              | thrown e => simp [hl3, hl2, hl1, ofStatus]
          | undefined => simp [hl1, ofStatus]
          | thrown e => simp [hl1, ofStatus]
      · simp only [hroom, if_false]
        cases hal : RawMemory.Allocate E (if v.size_ = 0 then 1 else v.size_ * 2) with
        | none => simp
        | some new_data =>
          have hlen := Allocate_length E _ new_data hal
          cases args with
          | none => simp
          | some x =>
            simp only
            obtain ⟨nd0, st0, hr0, hl0⟩ : ∃ d st, construct_at new_data index x = (d, st)
                ∧ d.length = new_data.length := ⟨_, _, rfl, construct_at_length _ _ _⟩
            simp only [hr0]
            cases st0 with
            | undefined => simp [ofStatus]
            | thrown e => simp [ofStatus]
            | ok =>
              simp only
              have hsecond : ∀ od1 nd1 : RawMemory α, od1.length = v.data_.length →
                  nd1.length = new_data.length →
                  Shape v
                    (match
                      (match ReallocateData E od1 index (v.size_ - index) nd1 (index + 1) with
                        | (od, nd, Status.thrown _) =>
                          match destroy_n nd 0 (index + 1) with
                          | (nd2, st) => (od, nd2, st)
                        | r => r) with
                      | (_, nd2, Status.ok) => (Vector.mk nd2 (v.size_ + 1), Outcome.ret index)
                      | (od2, _, st) => (Vector.mk od2 v.size_, ofStatus st index))
                    index (v.size_ + 1) (if v.size_ = 0 then 1 else v.size_ * 2) := by
                intro od1 nd1 ho hn
                obtain ⟨od, nd, st, hr, h1, h2⟩ :=
                  ReallocateData_cases E od1 index (v.size_ - index) nd1 (index + 1)
                simp only [hr, Shape]
                cases st with
                | ok => simp [h2, hn, hlen]
                | undefined => simp [h1, ho, ofStatus]
                | thrown e =>
                  simp only
                  obtain ⟨nd2, st2, hr2, hl2⟩ : ∃ d st, destroy_n nd 0 (index + 1) = (d, st)
                      ∧ d.length = nd.length := ⟨_, _, rfl, destroy_n_length nd 0 (index + 1)⟩
                  simp only [hr2]
                  cases st2 <;> simp [h1, ho, ofStatus, hl2, h2, hn, hlen]
              obtain ⟨od, nd, st, hr, h1, h2⟩ := ReallocateData_cases E v.data_ 0 index nd0 0
              simp only [hr]
              cases st with
              | ok => simpa [Shape] using hsecond od nd h1 (by rw [h2, hl0])
              | undefined => simp [h1, ofStatus]
              | thrown e =>
                simp only
                obtain ⟨nd1, st1, hr1, hl1⟩ : ∃ d st, destroy_n nd index 1 = (d, st)
                    ∧ d.length = nd.length := ⟨_, _, rfl, destroy_n_length nd index 1⟩
                simp only [hr1]
                cases st1 with
                | ok => simpa [Shape] using hsecond od nd1 h1 (by rw [hl1, h2, hl0])
                | undefined => simp [h1, ofStatus]
                | thrown e => simp [h1, ofStatus]
  · simp [hle]

theorem Resize_shape (E : Env α) (v : Vector α) (n : Nat) :
    ((Resize E v n).2 = Outcome.ret () ∧ (Resize E v n).1.size_ = n
        ∧ (Resize E v n).1.Capacity = if v.size_ < n then max v.Capacity n else v.Capacity)
      ∨ ((Resize E v n).2 ≠ Outcome.ret () ∧ (Resize E v n).1.size_ = v.size_
        ∧ v.Capacity ≤ (Resize E v n).1.Capacity) := by
  unfold Resize
  by_cases heq : n = v.size_
  · simp [heq]
  · simp only [heq, if_false]
    by_cases hlt : n < v.size_
    · simp only [hlt, if_true]
      obtain ⟨d, st, hr, hl⟩ : ∃ d st, destroy_n v.data_ n (v.size_ - n) = (d, st)
          ∧ d.length = v.data_.length := ⟨_, _, rfl, destroy_n_length _ _ _⟩
      simp only [hr, Capacity, RawMemory.Capacity]
      have : ¬ v.size_ < n := by omega
      cases st <;> simp [hl, ofStatus, this]
    · have hgt : n > v.size_ := by omega
      simp only [hlt, hgt, if_true, if_false]
      have hres := Reserve_shape E v n
      generalize Reserve E v n = r at hres
      obtain ⟨v1, o⟩ := r
      simp only [Capacity, RawMemory.Capacity] at hres ⊢
      obtain ⟨hs1, hc1, hc2⟩ := hres
      cases o with
      | ret u =>
        have hc3 := hc2 rfl
        simp only
        obtain ⟨d, st, hr, hl⟩ : ∃ d st,
            uninitialized_value_construct_n E v1.data_ v1.size_ (n - v1.size_) = (d, st)
            ∧ d.length = v1.data_.length :=
          ⟨_, _, rfl, uninitialized_value_construct_n_length _ _ _ _⟩
        simp only [hr]
        have hgt2 : v.size_ < n := hgt
        cases st with
        | ok => simp [hl, hc3, hgt2]
        | undefined => simp [hl, hc3, ofStatus, hs1]
        | thrown e => simp [hl, hc3, ofStatus, hs1]
      | thrown e =>
        simp only [reduceCtorEq, false_and, or_false] at hc1
        simp [hs1, hc1]
      | undefined =>
        simp only [reduceCtorEq, false_and, or_false] at hc1
        simp [hs1, hc1]

theorem construct_copy_shape (E : Env α) (other v : Vector α)
    (h : construct_copy E other = Outcome.ret v) :
    v.size_ = other.size_ ∧ v.Capacity = other.size_ := by
  unfold construct_copy at h
  cases hal : RawMemory.Allocate E other.size_ with
  | none => simp [hal] at h
  | some data =>
    have hlen := Allocate_length E _ data hal
    simp only [hal] at h
    obtain ⟨d, st, hr, hl⟩ : ∃ d st,
        uninitialized_copy_n E other.data_ 0 other.size_ data 0 = (d, st)
        ∧ d.length = data.length := ⟨_, _, rfl, uninitialized_copy_n_length _ _ _ _ _ _⟩
    simp only [hr] at h
    cases st with
    | ok =>
      simp only [ofStatus, Outcome.ret.injEq] at h
      subst h
      simp [Capacity, RawMemory.Capacity, hl, hlen]
    | undefined => simp [ofStatus] at h
    | thrown e => simp [ofStatus] at h

theorem construct_sized_shape (E : Env α) (n : Nat) (v : Vector α)
    (h : construct_sized E n = Outcome.ret v) :
    v.size_ = n ∧ v.Capacity = n := by
  unfold construct_sized at h
  cases hal : RawMemory.Allocate E n with
  | none => simp [hal] at h
  | some data =>
    have hlen := Allocate_length E _ data hal
    simp only [hal] at h
    obtain ⟨d, st, hr, hl⟩ : ∃ d st,
        uninitialized_value_construct_n E data 0 n = (d, st)
        ∧ d.length = data.length := ⟨_, _, rfl, uninitialized_value_construct_n_length _ _ _ _⟩
    simp only [hr] at h
    cases st with
    | ok =>
      simp only [ofStatus, Outcome.ret.injEq] at h
      subst h
      simp [Capacity, RawMemory.Capacity, hl, hlen]
    | undefined => simp [ofStatus] at h
    | thrown e => simp [ofStatus] at h

theorem copy_assign_shape (E : Env α) (self rhs : Vector α) :
    ((copy_assign E self rhs).2 = Outcome.ret () ∧ (copy_assign E self rhs).1.size_ = rhs.size_
        ∧ (copy_assign E self rhs).1.Capacity
            = if rhs.size_ > self.Capacity then rhs.size_ else self.Capacity)
      ∨ ((copy_assign E self rhs).2 ≠ Outcome.ret ()
        ∧ (copy_assign E self rhs).1.size_ = self.size_
        ∧ (copy_assign E self rhs).1.Capacity = self.Capacity) := by
  unfold copy_assign
  by_cases hbig : rhs.size_ > self.Capacity
  · simp only [hbig, if_true]
    cases hc : construct_copy E rhs with
    | ret rhs_copy =>
      have := construct_copy_shape E rhs rhs_copy hc
      simp [Swap, Capacity, RawMemory.Capacity] at this ⊢
      exact this.2
    | thrown e => simp
    | undefined => simp
  · simp only [hbig, if_false]
    by_cases hless : rhs.size_ < self.size_
    · simp only [hless, if_true]
      obtain ⟨d, st, hr, hl⟩ : ∃ d st,
          copy_n_assign E rhs.data_ 0 rhs.size_ self.data_ 0 = (d, st)
          ∧ d.length = self.data_.length := ⟨_, _, rfl, copy_n_assign_length _ _ _ _ _ _⟩
      simp only [hr, Capacity, RawMemory.Capacity]
      cases st with
      | ok =>
        simp only
        obtain ⟨d1, st1, hr1, hl1⟩ : ∃ d1 st, destroy_n d rhs.size_ (self.size_ - rhs.size_)
            = (d1, st) ∧ d1.length = d.length := ⟨_, _, rfl, destroy_n_length _ _ _⟩
        simp only [hr1]
        cases st1 <;> simp [hl1, hl, ofStatus]
      | undefined => simp [hl, ofStatus]
      | thrown e => simp [hl, ofStatus]
    · simp only [hless, if_false]
      obtain ⟨d, st, hr, hl⟩ : ∃ d st,
          copy_n_assign E rhs.data_ 0 self.size_ self.data_ 0 = (d, st)
          ∧ d.length = self.data_.length := ⟨_, _, rfl, copy_n_assign_length _ _ _ _ _ _⟩
      simp only [hr, Capacity, RawMemory.Capacity]
      cases st with
      | ok =>
        simp only
        obtain ⟨d1, st1, hr1, hl1⟩ : ∃ d1 st,
            uninitialized_copy_n E rhs.data_ self.size_ (rhs.size_ - self.size_) d self.size_
              = (d1, st) ∧ d1.length = d.length :=
          ⟨_, _, rfl, uninitialized_copy_n_length _ _ _ _ _ _⟩
        simp only [hr1]
        cases st1 <;> simp [hl1, hl, ofStatus]
      | undefined => simp [hl, ofStatus]
      | thrown e => simp [hl, ofStatus]

/-! ## The invariant `size <= capacity` (C6) -/

theorem Reserve_inv (E : Env α) (v : Vector α) (n : Nat) (h : Inv v) : Inv (Reserve E v n).1 := by
  obtain ⟨h1, h2, -⟩ := Reserve_shape E v n
  unfold Inv at *
  rcases h2 with h2 | ⟨-, h3, h4⟩ <;> omega

theorem Resize_inv (E : Env α) (v : Vector α) (n : Nat) (h : Inv v) : Inv (Resize E v n).1 := by
  unfold Inv at *
  rcases Resize_shape E v n with ⟨-, h1, h2⟩ | ⟨-, h1, h2⟩
  · rw [h1, h2]; split <;> omega
  · omega

theorem EmplaceBack_inv (E : Env α) (v : Vector α) (args : Option α) (h : Inv v) :
    Inv (EmplaceBack E v args).1 := by
  unfold Inv at *
  rcases EmplaceBack_shape E v args with ⟨-, h1, -, h2⟩ | ⟨-, h1, h2⟩
  · rw [h1, h2]; split
    · split <;> omega
    · omega
  · omega

theorem PushBack_fst (E : Env α) (v : Vector α) (x : α) :
    (PushBack E v x).1 = (EmplaceBack E v (if E.copyThrows x then none else some x)).1 := by
  unfold PushBack
  split <;> simp_all

theorem PushBackMove_fst (E : Env α) (v : Vector α) (x : α) :
    (PushBackMove E v x).1 = (EmplaceBack E v (if E.moveThrows x then none else some x)).1 := by
  unfold PushBackMove
  split <;> simp_all

theorem PopBack_inv (v : Vector α) (h : Inv v) : Inv (PopBack v).1 := by
  unfold Inv at *
  rcases PopBack_shape v with ⟨-, -, h1, h2⟩ | ⟨-, h1, h2⟩ <;> omega

theorem Emplace_inv (E : Env α) (v : Vector α) (i : Nat) (args : Option α) (h : Inv v) :
    Inv (Emplace E v i args).1 := by
  unfold Inv at *
  rcases Emplace_shape E v i args with ⟨-, -, h1, h2⟩ | ⟨-, h1, h2⟩
  · rw [h1, h2]; split
    · omega
    · split <;> omega
  · omega

theorem Erase_inv (E : Env α) (v : Vector α) (i : Nat) (h : Inv v) : Inv (Erase E v i).1 := by
  unfold Inv at *
  rcases Erase_shape E v i with ⟨-, -, h1, h2⟩ | ⟨-, h1, h2⟩ <;> omega

theorem copy_assign_inv (E : Env α) (v r : Vector α) (h : Inv v) :
    Inv (Vector.copy_assign E v r).1 := by
  unfold Inv at *
  rcases copy_assign_shape E v r with ⟨-, h1, h2⟩ | ⟨-, h1, h2⟩
  · rw [h1, h2]; split <;> omega
  · omega

theorem commit_inv {ρ : Type} (s s1 : List (Vector α)) (j : Nat) (r : Vector α × Outcome ρ)
    (hs : ∀ v ∈ s, Inv v) (hr : Inv r.1) (h : commit s j r = some s1) : ∀ v ∈ s1, Inv v := by
  unfold commit at h
  split at h
  · simp at h
  · simp only [Option.some.injEq] at h
    subst h
    intro v hv
    rcases List.mem_or_eq_of_mem_set hv with h1 | h1
    · exact hs v h1
    · subst h1; exact hr

theorem step_inv (E : Env α) (s s1 : List (Vector α)) (c : Call α)
    (hs : ∀ v ∈ s, Inv v) (h : step E s c = some s1) : ∀ v ∈ s1, Inv v := by
  have hget : ∀ (j : Nat) (v : Vector α), s[j]? = some v → Inv v := fun j v hj =>
    hs v (List.getElem?_mem hj)
  have hset2 : ∀ (j k : Nat) (a b : Vector α), Inv a → Inv b →
      ∀ v ∈ (s.set j a).set k b, Inv v := by
    intro j k a b ha hb v hv
    rcases List.mem_or_eq_of_mem_set hv with h1 | h1
    · rcases List.mem_or_eq_of_mem_set h1 with h2 | h2
      · exact hs v h2
      · subst h2; exact ha
    · subst h1; exact hb
  cases c with
  | default_construct =>
    simp only [step, Option.some.injEq] at h
    subst h
    intro v hv
    rcases List.mem_append.mp hv with h1 | h1
    · exact hs v h1
    · simp only [List.mem_singleton] at h1
      subst h1
      simp [Inv, Vector.empty, Capacity, RawMemory.Capacity]
  | sized_construct size =>
    simp only [step] at h
    cases hc : construct_sized E size with
    | ret v0 =>
      simp only [hc, Option.some.injEq] at h
      subst h
      intro v hv
      rcases List.mem_append.mp hv with h1 | h1
      · exact hs v h1
      · simp only [List.mem_singleton] at h1
        subst h1
        have := construct_sized_shape E size v hc
        unfold Inv; omega
    | thrown e => simp only [hc, Option.some.injEq] at h; subst h; exact hs
    | undefined => simp [hc] at h
  | copy_construct other =>
    simp only [step] at h
    cases ho : s[other]? with
    | none => simp [ho] at h
    | some o =>
      simp only [ho] at h
      cases hc : construct_copy E o with
      | ret v0 =>
        simp only [hc, Option.some.injEq] at h
        subst h
        intro v hv
        rcases List.mem_append.mp hv with h1 | h1
        · exact hs v h1
        · simp only [List.mem_singleton] at h1
          subst h1
          have := construct_copy_shape E o v hc
          unfold Inv; omega
      | thrown e => simp only [hc, Option.some.injEq] at h; subst h; exact hs
      | undefined => simp [hc] at h
  | move_construct other =>
    simp only [step] at h
    cases ho : s[other]? with
    | none => simp [ho] at h
    | some o =>
      simp only [ho, Option.some.injEq] at h
      subst h
      intro v hv
      rcases List.mem_append.mp hv with h1 | h1
      · rcases List.mem_or_eq_of_mem_set h1 with h2 | h2
        · exact hs v h2
        · subst h2
          simp [Inv, construct_move, Swap, Vector.empty, Capacity, RawMemory.Capacity]
      · simp only [List.mem_singleton] at h1
        subst h1
        exact hget other o ho
  | copy_assign self rhs =>
    simp only [step] at h
    cases hv : s[self]? with
    | none => simp [hv] at h
    | some v0 =>
      cases hr : s[rhs]? with
      | none => simp [hv, hr] at h
      | some r0 =>
        simp only [hv, hr] at h
        split at h
        · simp only [Option.some.injEq] at h; subst h; exact hs
        · exact commit_inv s s1 self _ hs
            (copy_assign_inv E v0 r0 (hget _ _ hv)) h
  | move_assign self rhs =>
    simp only [step] at h
    cases hv : s[self]? with
    | none => simp [hv] at h
    | some v0 =>
      cases hr : s[rhs]? with
      | none => simp [hv, hr] at h
      | some r0 =>
        simp only [hv, hr] at h
        split at h
        · simp only [Option.some.injEq] at h; subst h; exact hs
        · simp only [Option.some.injEq] at h
          subst h
          exact hset2 _ _ _ _ (hget _ _ hr) (hget _ _ hv)
  | swap self other =>
    simp only [step] at h
    cases hv : s[self]? with
    | none => simp [hv] at h
    | some v0 =>
      cases hr : s[other]? with
      | none => simp [hv, hr] at h
      | some r0 =>
        simp only [hv, hr] at h
        split at h
        · simp only [Option.some.injEq] at h; subst h; exact hs
        · simp only [Option.some.injEq] at h
          subst h
          exact hset2 _ _ _ _ (hget _ _ hr) (hget _ _ hv)
  | reserve self n =>
    simp only [step] at h
    cases hv : s[self]? with
    | none => simp [hv] at h
    | some v0 =>
      simp only [hv] at h
      exact commit_inv s s1 self _ hs (Reserve_inv E v0 n (hget _ _ hv)) h
  | resize self n =>
    simp only [step] at h
    cases hv : s[self]? with
    | none => simp [hv] at h
    | some v0 =>
      simp only [hv] at h
      exact commit_inv s s1 self _ hs (Resize_inv E v0 n (hget _ _ hv)) h
  | push_back self x =>
    simp only [step] at h
    cases hv : s[self]? with
    | none => simp [hv] at h
    | some v0 =>
      simp only [hv] at h
      exact commit_inv s s1 self _ hs
        (by rw [PushBack_fst]; exact EmplaceBack_inv E v0 _ (hget _ _ hv)) h
  | push_back_move self x =>
    simp only [step] at h
    cases hv : s[self]? with
    | none => simp [hv] at h
    | some v0 =>
      simp only [hv] at h
      exact commit_inv s s1 self _ hs
        (by rw [PushBackMove_fst]; exact EmplaceBack_inv E v0 _ (hget _ _ hv)) h
  | pop_back self =>
    simp only [step] at h
    cases hv : s[self]? with
    | none => simp [hv] at h
    | some v0 =>
      simp only [hv] at h
      exact commit_inv s s1 self _ hs (PopBack_inv v0 (hget _ _ hv)) h
  | emplace_back self args =>
    simp only [step] at h
    cases hv : s[self]? with
    | none => simp [hv] at h
    | some v0 =>
      simp only [hv] at h
      exact commit_inv s s1 self _ hs (EmplaceBack_inv E v0 args (hget _ _ hv)) h
  | insert self i x =>
    simp only [step] at h
    cases hv : s[self]? with
    | none => simp [hv] at h
    | some v0 =>
      simp only [hv] at h
      exact commit_inv s s1 self _ hs (Emplace_inv E v0 i _ (hget _ _ hv)) h
  | insert_move self i x =>
    simp only [step] at h
    cases hv : s[self]? with
    | none => simp [hv] at h
    | some v0 =>
      simp only [hv] at h
      exact commit_inv s s1 self _ hs (Emplace_inv E v0 i _ (hget _ _ hv)) h
  | emplace self i args =>
    simp only [step] at h
    cases hv : s[self]? with
    | none => simp [hv] at h
    | some v0 =>
      simp only [hv] at h
      exact commit_inv s s1 self _ hs (Emplace_inv E v0 i args (hget _ _ hv)) h
  | erase self i =>
    simp only [step] at h
    cases hv : s[self]? with
    | none => simp [hv] at h
    | some v0 =>
      simp only [hv] at h
      exact commit_inv s s1 self _ hs (Erase_inv E v0 i (hget _ _ hv)) h

theorem run_inv (E : Env α) (calls : List (Call α)) (s s1 : List (Vector α))
    (hs : ∀ v ∈ s, Inv v) (h : run E s calls = some s1) : ∀ v ∈ s1, Inv v := by
  induction calls generalizing s with
  | nil => simp only [run, Option.some.injEq] at h; subst h; exact hs
  | cons c cs ih =>
    simp only [run] at h
    cases hc : step E s c with
    | none => simp [hc] at h
    | some s2 =>
      simp only [hc] at h
      exact ih s2 (step_inv E s s2 c hs hc) h

/-- C6: `size <= capacity` holds for the default-constructed, the pre-sized and
the copy-constructed vector and is preserved by every public operation, hence
it holds for every vector of the program after every finite sequence of calls
(made within their preconditions), from the empty program or from any store
whose vectors satisfy it; a call that throws leaves it intact too. -/
theorem size_le_capacity_invariant (E : Env α) (calls : List (Call α))
    (s0 s : List (Vector α)) (h0 : ∀ v ∈ s0, v.Size ≤ v.Capacity)
    (h : run E s0 calls = some s) :
    ∀ v ∈ s, v.Size ≤ v.Capacity :=
  run_inv E calls s0 s h0 h

theorem size_le_capacity_invariant_witness :
    (Vector.mk [some 56, some 7, some 0, some 0, none, none] 4 : Vector Int).Size
      ≤ (Vector.mk [some 56, some 7, some 0, some 0, none, none] 4 : Vector Int).Capacity :=
  size_le_capacity_invariant intEnv
    [Call.default_construct, .reserve 0 3, .push_back 0 42, .push_back 0 56, .resize 0 4,
      .erase 0 0, .copy_construct 0, .insert 1 1 7, .emplace_back 1 (some 9), .swap 0 1,
      .pop_back 0, .sized_construct 2, .copy_assign 2 1, .move_assign 0 2, .move_construct 1]
    []
    [Vector.mk [some 56, some 0, some 0] 3, Vector.mk [] 0,
      Vector.mk [some 56, some 7, some 0, some 0, none, none] 4,
      Vector.mk [some 56, some 0, some 0, none] 3]
    (by simp) (by decide) _ (by simp)

/-! ## The frame of `Reserve` (C7) -/

theorem uninitialized_move_n_throws (E : Env α) (L R DL DR : List (Option α))
    (ws : List α) (xs : List (Option α)) (first d_first : Nat)
    (h : first = L.length) (hd : d_first = DL.length) (hx : xs.length = ws.length)
    (hmove : ws.any E.moveThrows = true) :
    (uninitialized_move_n E (L ++ ws.map some ++ R) first ws.length (DL ++ xs ++ DR) d_first).2.2
      = Status.thrown Exn.element_failure := by
  induction ws generalizing L DL xs first d_first with
  | nil => simp at hmove
  | cons w ws ih =>
    obtain ⟨y, ys, rfl⟩ : ∃ y ys, xs = y :: ys := by
      cases xs with
      | nil => simp at hx
      | cons y ys => exact ⟨y, ys, rfl⟩
    have h1 : (L ++ (w :: ws).map some ++ R)[first]? = some (some w) := by
      rw [List.map_cons, List.append_assoc, List.cons_append]; exact getElem?_mid L _ _ _ h
    have h2 : d_first < (DL ++ y :: ys ++ DR).length := by simp [hd]
    have h3 : (DL ++ y :: ys ++ DR).set d_first (some w) = (DL ++ [some w]) ++ ys ++ DR := by
      rw [List.append_assoc, List.cons_append, set_mid DL _ _ _ _ hd]; simp
    have h4 : (L ++ (w :: ws).map some ++ R).set first (some (E.movedFrom w))
        = (L ++ [some (E.movedFrom w)]) ++ ws.map some ++ R := by
      rw [List.map_cons, List.append_assoc, List.cons_append, set_mid L _ _ _ _ h]; simp
    simp only [List.length_cons, uninitialized_move_n, h1, h2, if_true]
    by_cases hw : E.moveThrows w = true
    · simp [hw]
    · have hw0 : E.moveThrows w = false := by simpa using hw
      have hrest : ws.any E.moveThrows = true := by
        simpa [List.any_cons, hw0] using hmove
      simp only [hw0, h3, h4, Bool.false_eq_true, if_false]
      have := ih (L ++ [some (E.movedFrom w)]) (DL ++ [some w]) ys (first + 1) (d_first + 1)
        (by simp [h]) (by simp [hd]) (by simpa using hx) hrest
      generalize uninitialized_move_n E (L ++ [some (E.movedFrom w)] ++ ws.map some ++ R)
        (first + 1) ws.length (DL ++ [some w] ++ ys ++ DR) (d_first + 1) = r at this ⊢
      obtain ⟨s1, d1, st⟩ := r
      simp only at this
      subst this
      rfl

theorem ReallocateData_move_path_throws (E : Env α) (L R DL DR : List (Option α))
    (ws : List α) (xs : List (Option α)) (first d_first : Nat)
    (hpath : (E.is_nothrow_move_constructible || !E.is_copy_constructible) = true)
    (h : first = L.length) (hd : d_first = DL.length) (hx : xs.length = ws.length)
    (hmove : ws.any E.moveThrows = true) :
    (ReallocateData E (L ++ ws.map some ++ R) first ws.length (DL ++ xs ++ DR) d_first).2.2
      = Status.thrown Exn.element_failure := by
  have := uninitialized_move_n_throws E L R DL DR ws xs first d_first h hd hx hmove
  unfold ReallocateData
  simp only [hpath, if_true]
  generalize uninitialized_move_n E (L ++ ws.map some ++ R) first ws.length (DL ++ xs ++ DR)
    d_first = r at this ⊢
  obtain ⟨s1, d1, st⟩ := r
  simp only at this
  subst this
  rfl

/-- C7: `Reserve(n)` never changes the size and never lowers the capacity; for
`n <= capacity` it does nothing at all; a `Reserve` that returns leaves every
element as it was, in a block of `max(capacity, n)` slots (exactly `n` when
`n > capacity`); and it returns whenever the allocation succeeds and no
element operation throws. -/
theorem reserve_frame (E : Env α) (vs : List α) (cap n : Nat) (hcap : vs.length ≤ cap) :
    (Reserve E (ofList vs cap) n).1.Size = (ofList vs cap).Size
      ∧ (ofList vs cap).Capacity ≤ (Reserve E (ofList vs cap) n).1.Capacity
      ∧ (n ≤ cap → Reserve E (ofList vs cap) n = (ofList vs cap, Outcome.ret ()))
      ∧ ((Reserve E (ofList vs cap) n).2 = Outcome.ret () →
          (Reserve E (ofList vs cap) n).1 = ofList vs (max cap n)
          ∧ (cap < n → (Reserve E (ofList vs cap) n).1.Capacity = n))
      ∧ (E.NoElementFailure → E.allocOk n = true →
          Reserve E (ofList vs cap) n = (ofList vs (max cap n), Outcome.ret ())) := by
  have hC := ofList_Capacity vs cap hcap
  have hs : (ofList vs cap).size_ = vs.length := rfl
  obtain ⟨h1, h2, h3⟩ := Reserve_shape E (ofList vs cap) n
  have hnoop : n ≤ cap → Reserve E (ofList vs cap) n = (ofList vs cap, Outcome.ret ()) := by
    intro hle
    unfold Reserve
    simp [hC, hle]
  -- the result of a call that has to relocate
  have hgrow : cap < n → ∀ nd, RawMemory.Allocate E n = some nd →
      (Reserve E (ofList vs cap) n).2 = Outcome.ret () →
      Reserve E (ofList vs cap) n = (ofList vs n, Outcome.ret ()) := by
    intro hlt nd hal hret
    have hnd : nd = List.replicate n none := by
      rw [Allocate_pos E n (by omega)] at hal
      split at hal
      · simpa using hal.symm
      · simp at hal
    subst hnd
    have hsplit : List.replicate n (none : Option α)
        = [] ++ List.replicate vs.length none ++ List.replicate (n - vs.length) none := by
      rw [List.nil_append, ← List.replicate_add]; congr 1; omega
    have hnle : ¬ n ≤ cap := by omega
    unfold Reserve at hret ⊢
    simp only [hC, hnle, if_false, hal, hs] at hret ⊢
    rw [ofList_data_nil, hsplit] at hret ⊢
    by_cases hpath : (E.is_nothrow_move_constructible || !E.is_copy_constructible) = true
    · by_cases hmv : ∀ w ∈ vs, E.moveThrows w = false
      · rw [ReallocateData_move_path_ok E [] _ [] _ vs _ 0 0 hpath rfl rfl (by simp) hmv]
        simp [ofList]
      · exfalso
        have hany : vs.any E.moveThrows = true := by
          by_contra hc
          apply hmv
          intro w hw
          by_contra hc2
          exact hc (List.any_eq_true.mpr ⟨w, hw, by simpa using hc2⟩)
        have hthr := ReallocateData_move_path_throws E [] (List.replicate (cap - vs.length) none)
          [] (List.replicate (n - vs.length) none) vs (List.replicate vs.length none) 0 0 hpath
          rfl rfl (by simp) hany
        generalize ReallocateData E ([] ++ vs.map some ++ List.replicate (cap - vs.length) none)
          0 vs.length ([] ++ List.replicate vs.length none ++ List.replicate (n - vs.length) none)
          0 = r at hthr hret
        obtain ⟨s1, d1, st⟩ := r
        simp only at hthr
        subst hthr
        simp [ofStatus] at hret
    · have hpath0 : (E.is_nothrow_move_constructible || !E.is_copy_constructible) = false := by
        simpa using hpath
      rw [ReallocateData_copy_path E [] _ [] _ vs 0 0 hpath0 rfl rfl] at hret ⊢
      by_cases hthrow : vs.any E.copyThrows = true
      · simp [hthrow, ofStatus] at hret
      · simp [hthrow, ofList]
  refine ⟨h1, ?_, hnoop, ?_, ?_⟩
  · rcases h2 with h2 | ⟨-, h4, h5⟩
    · exact le_of_eq h2.symm
    · rw [h5]; exact le_of_lt h4
  · intro hret
    by_cases hle : n ≤ cap
    · rw [hnoop hle, Nat.max_eq_left hle]
      exact ⟨rfl, fun hlt => absurd hlt (by omega)⟩
    · have hlt : cap < n := by omega
      cases hal : RawMemory.Allocate E n with
      | none =>
        exfalso
        unfold Reserve at hret
        simp [hC, hle, hal] at hret
      | some nd =>
        have := hgrow hlt nd hal hret
        rw [this, Nat.max_eq_right (le_of_lt hlt)]
        exact ⟨rfl, fun _ => ofList_Capacity vs n (by omega)⟩
  · intro hE hA
    by_cases hle : n ≤ cap
    · rw [hnoop hle, Nat.max_eq_left hle]
    · have hlt : cap < n := by omega
      rw [Nat.max_eq_right (le_of_lt hlt)]
      have hal : RawMemory.Allocate E n = some (List.replicate n none) := by
        rw [Allocate_pos E n (by omega), hA]; rfl
      have hsplit : List.replicate n (none : Option α)
          = [] ++ List.replicate vs.length none ++ List.replicate (n - vs.length) none := by
        rw [List.nil_append, ← List.replicate_add]; congr 1; omega
      unfold Reserve
      simp only [hC, hle, if_false, hal, hs]
      rw [ofList_data_nil, hsplit,
        ReallocateData_ok E [] _ [] _ vs _ 0 0 rfl rfl (by simp) (fun w _ => hE.2.1 w)
          (fun w _ => hE.1 w)]
      simp [ofList]

theorem reserve_frame_witness :
    Reserve intEnv (ofList [42, 56] 2) 10 = (ofList [42, 56] 10, Outcome.ret ()) :=
  (reserve_frame intEnv [42, 56] 2 10 (by decide)).2.2.2.2 intEnv_noElementFailure rfl

/-! ## Growth by doubling (C8) -/

theorem emplace_back_all_doubles (E : Env α) (as : List (Option α)) (v v1 : Vector α)
    (hv : DoubledFor v.size_ v.Capacity) (h : emplace_back_all E v as = some v1) :
    v1.size_ = v.size_ + as.length ∧ DoubledFor v1.size_ v1.Capacity := by
  induction as generalizing v with
  | nil =>
    simp only [emplace_back_all, Option.some.injEq] at h
    subst h
    exact ⟨by simp, hv⟩
  | cons a as ih =>
    have hsh := EmplaceBack_shape E v a
    unfold emplace_back_all at h
    generalize EmplaceBack E v a = r at hsh h
    obtain ⟨v2, o⟩ := r
    cases o with
    | ret i =>
      simp only at h
      simp only [Outcome.ret.injEq, ne_eq, forall_eq', not_true_eq_false, false_and,
        or_false] at hsh
      obtain ⟨-, hs2, hle, hc2⟩ := hsh
      have hv2 : DoubledFor v2.size_ v2.Capacity := by
        rw [hs2, hc2]
        rcases hv with ⟨hk, hc⟩ | ⟨hk, hkc, hck, e, he⟩
        · right
          simp only [hk, hc]
          exact ⟨by omega, by simp, by simp, 0, by simp⟩
        · right
          by_cases hfull : v.size_ = v.Capacity
          · have hne : v.size_ ≠ 0 := by omega
            simp only [hfull.symm, if_true, hne, if_false]
            refine ⟨by omega, by omega, by omega, e + 1, ?_⟩
            rw [pow_succ, ← he, ← hfull]
          · simp only [hfull, if_false]
            exact ⟨by omega, by omega, by omega, e, he⟩
      obtain ⟨h1, h2⟩ := ih v2 hv2 h
      refine ⟨?_, h2⟩
      rw [h1, hs2, List.length_cons]; omega
    | thrown e => simp at h
    | undefined => simp at h

theorem DoubledFor_least (k cap : Nat) (hk : 1 ≤ k) (h : DoubledFor k cap) :
    ∃ e, cap = 2 ^ e ∧ k ≤ 2 ^ e ∧ ∀ e1, k ≤ 2 ^ e1 → e ≤ e1 := by
  rcases h with ⟨h0, -⟩ | ⟨-, hkc, hck, e, he⟩
  · omega
  · refine ⟨e, he, he ▸ hkc, ?_⟩
    intro e1 h1
    by_contra hlt
    have h2 : e1 + 1 ≤ e := by omega
    have h3 : 2 ^ (e1 + 1) ≤ 2 ^ e := Nat.pow_le_pow_right (by decide) h2
    rw [pow_succ] at h3
    omega

theorem emplace_back_all_ok (E : Env α) (hE : E.NoElementFailure) (hA : E.NoAllocFailure)
    (xs vs : List α) (cap : Nat) (hcap : vs.length ≤ cap) :
    ∃ cap1, emplace_back_all E (ofList vs cap) (xs.map some) = some (ofList (vs ++ xs) cap1)
      ∧ (vs ++ xs).length ≤ cap1 := by
  induction xs generalizing vs cap with
  | nil => exact ⟨cap, by simp [emplace_back_all], by simpa using hcap⟩
  | cons x xs ih =>
    have hb := EmplaceBack_ok E hE hA vs cap x hcap
    simp only [List.map_cons, emplace_back_all, hb]
    have hcap1 : (vs ++ [x]).length ≤
        (if vs.length = cap then if vs.length = 0 then 1 else vs.length * 2 else cap) := by
      simp only [List.length_append, List.length_singleton]
      split
      · split <;> omega
      · omega
    obtain ⟨cap1, h1, h2⟩ := ih (vs ++ [x]) _ hcap1
    exact ⟨cap1, by simpa using h1, by simpa using h2⟩

/-- C8: from a default-constructed vector, after `k >= 1` appends that all
returned the capacity is the least power of two that is `>= k`; an append of a
vector with `size != capacity` leaves the capacity as it is, and one of a full
vector that returns takes it from `0` to `1` and from `c` to `2 * c`; with no
failing element operation or allocation the `k` appends do all return, and
leave the `k` appended values in order. -/
theorem append_capacity_doubles (E : Env α) :
    (∀ (as : List (Option α)) (v : Vector α), as ≠ [] →
        emplace_back_all E Vector.empty as = some v →
        v.Size = as.length
        ∧ ∃ e, v.Capacity = 2 ^ e ∧ as.length ≤ 2 ^ e ∧ ∀ e1, as.length ≤ 2 ^ e1 → e ≤ e1)
      ∧ (∀ (v : Vector α) (x : α), (PushBack E v x).1.Capacity
            = (EmplaceBack E v (if E.copyThrows x then none else some x)).1.Capacity)
      ∧ (∀ (v : Vector α) (args : Option α), v.Size ≠ v.Capacity →
          (EmplaceBack E v args).1.Capacity = v.Capacity)
      ∧ (∀ (v : Vector α) (args : Option α) (i : Nat), v.Size = v.Capacity →
          (EmplaceBack E v args).2 = Outcome.ret i →
          (EmplaceBack E v args).1.Capacity = if v.Capacity = 0 then 1 else v.Capacity * 2)
      ∧ (E.NoElementFailure → E.NoAllocFailure → ∀ xs : List α,
          ∃ cap, emplace_back_all E Vector.empty (xs.map some) = some (ofList xs cap)) := by
  refine ⟨?_, ?_, ?_, ?_, ?_⟩
  · intro as v hne h
    have hpos : 1 ≤ as.length := List.length_pos.mpr hne
    obtain ⟨h1, h2⟩ := emplace_back_all_doubles E as Vector.empty v
      (Or.inl ⟨rfl, rfl⟩) h
    have hs : v.size_ = as.length := by simpa [Vector.empty] using h1
    rw [hs] at h2
    exact ⟨hs, DoubledFor_least as.length v.Capacity hpos h2⟩
  · intro v x
    rw [PushBack_fst]
  · intro v args hne
    rcases EmplaceBack_shape E v args with ⟨-, -, -, h⟩ | ⟨-, -, h⟩
    · rw [h]; simp only [Size] at hne; simp [hne]
    · exact h
  · intro v args i hfull hret
    rcases EmplaceBack_shape E v args with ⟨-, -, -, h⟩ | ⟨hn, -, -⟩
    · rw [h]; simp only [Size] at hfull; simp [hfull]
    · exact absurd hret (hn i)
  · intro hE hA xs
    obtain ⟨cap, h, -⟩ := emplace_back_all_ok E hE hA xs [] 0 (by simp)
    exact ⟨cap, by simpa [ofList, Vector.empty] using h⟩

theorem append_capacity_doubles_witness :
    (ofList [1, 2, 3, 4, 5] 8 : Vector Int).Size = 5
      ∧ ∃ e, (ofList [1, 2, 3, 4, 5] 8 : Vector Int).Capacity = 2 ^ e ∧ 5 ≤ 2 ^ e
          ∧ ∀ e1, 5 ≤ 2 ^ e1 → e ≤ e1 :=
  (append_capacity_doubles intEnv).1 [some 1, some 2, some 3, some 4, some 5]
    (ofList [1, 2, 3, 4, 5] 8) (by simp) (by decide)

/-! ## Copy and move (C9, C10) -/

theorem copy_n_assign_ok (E : Env α) (src : List (Option α)) (L R DL DR : List (Option α))
    (ws ys : List α) (first d_first : Nat)
    (hsrc : src = L ++ ws.map some ++ R)
    (h : first = L.length) (hd : d_first = DL.length) (hy : ys.length = ws.length)
    (hcopy : ∀ w ∈ ws, E.copyAssignThrows w = false) :
    copy_n_assign E src first ws.length (DL ++ ys.map some ++ DR) d_first
      = (DL ++ ws.map some ++ DR, Status.ok) := by
  induction ws generalizing L DL ys first d_first with
  | nil =>
    have : ys = [] := List.length_eq_zero.mp hy
    simp [copy_n_assign, this]
  | cons w ws ih =>
    obtain ⟨y, ys, rfl⟩ : ∃ y ys1, ys = y :: ys1 := by
      cases ys with
      | nil => simp at hy
      | cons y ys => exact ⟨y, ys, rfl⟩
    have h1 : src[first]? = some (some w) := by
      rw [hsrc, List.map_cons, List.append_assoc, List.cons_append]; exact getElem?_mid L _ _ _ h
    have h2 : (DL ++ (y :: ys).map some ++ DR)[d_first]? = some (some y) := by
      rw [List.map_cons, List.append_assoc, List.cons_append]; exact getElem?_mid DL _ _ _ hd
    have h3 : (DL ++ (y :: ys).map some ++ DR).set d_first (some w)
        = (DL ++ [some w]) ++ ys.map some ++ DR := by
      rw [List.map_cons, List.append_assoc, List.cons_append, set_mid DL _ _ _ _ hd]; simp
    have hw : E.copyAssignThrows w = false := hcopy w (by simp)
    simp only [List.length_cons, copy_n_assign, h1, h2, h3, hw]
    rw [ih (L ++ [some w]) (DL ++ [some w]) ys (first + 1) (d_first + 1) (by simp [hsrc])
      (by simp [h]) (by simp [hd]) (by simpa using hy) (fun v hv => hcopy v (by simp [hv]))]
    simp

theorem construct_copy_ok (E : Env α) (hE : E.NoElementFailure) (hA : E.NoAllocFailure)
    (as : List α) (cap : Nat) :
    construct_copy E (ofList as cap) = Outcome.ret (ofList as as.length) := by
  unfold construct_copy
  have hs : (ofList as cap).size_ = as.length := rfl
  rw [hs, Allocate_ok E hA]
  have := uninitialized_copy_n_ok E (ofList as cap).data_ [] (List.replicate (cap - as.length) none)
    [] [] as (List.replicate as.length none) 0 0 (by simp [ofList]) rfl rfl (by simp)
    (fun w _ => hE.1 w)
  simp only [List.nil_append, List.append_nil] at this
  simp only [this, ofStatus]
  simp [ofList]

theorem copy_assign_ok (E : Env α) (hE : E.NoElementFailure) (hA : E.NoAllocFailure)
    (as bs : List α) (capa capb : Nat) (hb : bs.length ≤ capb) :
    Vector.copy_assign E (ofList bs capb) (ofList as capa)
      = (ofList as (if as.length > capb then as.length else capb), Outcome.ret ()) := by
  have hC := ofList_Capacity bs capb hb
  have hsa : (ofList as capa).size_ = as.length := rfl
  have hsb : (ofList bs capb).size_ = bs.length := rfl
  unfold Vector.copy_assign
  simp only [hC, hsa, hsb]
  by_cases hbig : as.length > capb
  · simp only [hbig, if_true, construct_copy_ok E hE hA]
    simp [Swap, ofList]
  · simp only [hbig, if_false]
    have hale : as.length ≤ capb := by omega
    by_cases hless : as.length < bs.length
    · simp only [hless, if_true]
      have hbsplit : (ofList bs capb).data_
          = [] ++ (bs.take as.length).map some
            ++ ((bs.drop as.length).map some ++ List.replicate (capb - bs.length) none) := by
        simp only [ofList, List.nil_append, ← List.append_assoc, ← List.map_append,
          List.take_append_drop]
      have h1 := copy_n_assign_ok E (ofList as capa).data_ []
        (List.replicate (capa - as.length) none) []
        ((bs.drop as.length).map some ++ List.replicate (capb - bs.length) none)
        as (bs.take as.length) 0 0 (by simp [ofList]) rfl rfl (by simp; omega)
        (fun w _ => hE.2.2.1 w)
      rw [hbsplit, h1]
      have h2 := destroy_n_live (as.map some) (List.replicate (capb - bs.length) none)
        (bs.drop as.length) as.length (by simp)
      simp only [List.length_drop, List.nil_append, List.append_assoc] at h2 ⊢
      simp only [h2]
      simp only [ofList, Prod.mk.injEq, Vector.mk.injEq, and_true]
      rw [← List.replicate_add]
      congr 2
      omega
    · simp only [hless, if_false]
      have hble : bs.length ≤ as.length := by omega
      have h1 := copy_n_assign_ok E (ofList as capa).data_ []
        ((as.drop bs.length).map some ++ List.replicate (capa - as.length) none) []
        (List.replicate (capb - bs.length) none)
        (as.take bs.length) bs 0 0
        (by simp only [ofList, List.nil_append, ← List.append_assoc, ← List.map_append,
          List.take_append_drop])
        rfl rfl (by simp; omega) (fun w _ => hE.2.2.1 w)
      have hlt : (as.take bs.length).length = bs.length := by simp; omega
      rw [hlt] at h1
      have hbd : (ofList bs capb).data_
          = [] ++ bs.map some ++ List.replicate (capb - bs.length) none := by simp [ofList]
      rw [hbd, h1]
      simp only
      have hrep : List.replicate (capb - bs.length) (none : Option α)
          = List.replicate (as.drop bs.length).length none
            ++ List.replicate (capb - as.length) none := by
        rw [← List.replicate_add]; congr 1; simp; omega
      have h2 := uninitialized_copy_n_ok E (ofList as capa).data_
        ((as.take bs.length).map some) (List.replicate (capa - as.length) none)
        ((as.take bs.length).map some) (List.replicate (capb - as.length) none)
        (as.drop bs.length) (List.replicate (as.drop bs.length).length none)
        bs.length bs.length
        (by simp only [ofList, ← List.map_append, List.take_append_drop])
        (by simp; omega) (by simp; omega) (by simp) (fun w _ => hE.1 w)
      have hdl : (as.drop bs.length).length = as.length - bs.length := by simp
      rw [hrep]
      simp only [List.nil_append, ← List.append_assoc] at h2 ⊢
      rw [← hdl, h2]
      simp only [ofList, ← List.map_append, List.take_append_drop]

theorem commit_getElem? {ρ : Type} (s s1 : List (Vector α)) (j k : Nat)
    (r : Vector α × Outcome ρ) (hjk : k ≠ j) (h : commit s j r = some s1) :
    s1[k]? = s[k]? := by
  unfold commit at h
  split at h
  · simp at h
  · simp only [Option.some.injEq] at h
    subst h
    rw [List.getElem?_set_ne (Ne.symm hjk)]

theorem step_mutated_frame (E : Env α) (s s1 : List (Vector α)) (c : Call α) (j k : Nat)
    (hc : c.mutated = some j) (hjk : k ≠ j) (h : step E s c = some s1) :
    s1[k]? = s[k]? := by
  cases c <;> simp only [Call.mutated, Option.some.injEq, reduceCtorEq] at hc <;> subst hc <;>
    simp only [step] at h <;>
    (split at h
     · exact commit_getElem? s s1 _ k _ hjk h
     · simp at h)

/-- C9: for distinct vectors `b` (holding `bs`) and `a` (holding `as`), with no
failing element operation or allocation, the copy assignment `b = a` leaves `b`
holding `as` and `a` as it was, on each of the three branches; the capacity of
`b` becomes `a.size` when `a.size > b.capacity` and stays what it was
otherwise; and no later call made on `b` alone changes `a`. -/
theorem copy_assign_copies (E : Env α) (hE : E.NoElementFailure) (hA : E.NoAllocFailure)
    (as bs : List α) (capa capb : Nat) (hb : bs.length ≤ capb) :
    step E [ofList bs capb, ofList as capa] (Call.copy_assign 0 1)
        = some [ofList as (if as.length > capb then as.length else capb), ofList as capa]
      ∧ (ofList as (if as.length > capb then as.length else capb)).Size = (ofList as capa).Size
      ∧ (as.length > capb →
          (ofList as (if as.length > capb then as.length else capb)).Capacity = as.length)
      ∧ (as.length ≤ capb →
          (ofList as (if as.length > capb then as.length else capb)).Capacity
            = (ofList bs capb).Capacity)
      ∧ (∀ (c : Call α) (s1 : List (Vector α)), c.mutated = some 0 →
          step E [ofList as (if as.length > capb then as.length else capb), ofList as capa] c
            = some s1 →
          s1[1]? = some (ofList as capa)) := by
  refine ⟨?_, rfl, ?_, ?_, ?_⟩
  · simp [step, commit, copy_assign_ok E hE hA as bs capa capb hb]
  · intro h
    rw [if_pos h]
    exact ofList_Capacity as as.length (le_refl _)
  · intro h
    have : ¬ as.length > capb := by omega
    rw [if_neg this, ofList_Capacity as capb h, ofList_Capacity bs capb hb]
  · intro c s1 hc h
    rw [step_mutated_frame E _ s1 c 0 1 hc (by decide) h]
    rfl

theorem copy_assign_copies_witness :
    step intEnv [ofList [1, 2, 3] 4, ofList [17, 13] 2] (Call.copy_assign 0 1)
      = some [ofList [17, 13] 4, ofList [17, 13] 2] :=
  (copy_assign_copies intEnv intEnv_noElementFailure intEnv_noAllocFailure
    [17, 13] [1, 2, 3] 2 4 (by decide)).1

/-- C10: move construction from `a` and move assignment `c = move(a)` (for
distinct `c` and `a`) leave the destination with exactly the block and size `a`
had: the same elements in the same order, the same size, the same capacity. -/
theorem move_transfers_contents (E : Env α) (a c : Vector α) :
    (construct_move a).1 = a
      ∧ (move_assign c a).1 = a
      ∧ (construct_move a).1.Size = a.Size ∧ (construct_move a).1.Capacity = a.Capacity
      ∧ (move_assign c a).1.Size = a.Size ∧ (move_assign c a).1.Capacity = a.Capacity
      ∧ step E [a] (Call.move_construct 0) = some [(construct_move a).2, a]
      ∧ step E [c, a] (Call.move_assign 0 1) = some [a, (move_assign c a).2] := by
  refine ⟨rfl, rfl, rfl, rfl, rfl, rfl, ?_, ?_⟩
  · simp [step, construct_move, Swap]
  · simp [step, move_assign, Swap]

/-! ## The moved-from source (C11) -/

/-- C11 (amended): after move construction the source is the empty vector (size
0, capacity 0, no element); after the move assignment `c = move(a)` the source
`a` is exactly what the destination `c` was before (its block, its elements,
its size), so it is empty precisely when `c` held no element; in both cases the
source satisfies `size <= capacity` when the vectors did. -/
theorem move_source_state (E : Env α) (a c : Vector α) :
    (construct_move a).2 = Vector.empty
      ∧ (construct_move a).2.Size = 0 ∧ (construct_move a).2.Capacity = 0
      ∧ (move_assign c a).2 = c
      ∧ ((move_assign c a).2.Size = 0 ↔ c.Size = 0)
      ∧ (c.Size ≤ c.Capacity → (move_assign c a).2.Size ≤ (move_assign c a).2.Capacity)
      ∧ step E [a] (Call.move_construct 0) = some [Vector.empty, a]
      ∧ step E [c, a] (Call.move_assign 0 1) = some [a, c] := by
  refine ⟨rfl, rfl, rfl, rfl, Iff.rfl, fun h => h, ?_, ?_⟩
  · simp [step, construct_move, Swap, Vector.empty]
  · simp [step, move_assign, Swap]

/-- C11 as stated fails for move assignment: with `c` holding `[1, 2]` and `a`
holding `[17, 13]`, after `c = move(a)` the source `a` holds `[1, 2]` and has
size 2. -/
theorem move_assign_source_not_empty :
    step intEnv [ofList [1, 2] 2, ofList [17, 13] 2] (Call.move_assign 0 1)
        = some [ofList [17, 13] 2, ofList [1, 2] 2]
      ∧ (move_assign (ofList [1, 2] 2) (ofList [17, 13] 2 : Vector Int)).2.Size = 2
      ∧ (move_assign (ofList [1, 2] 2) (ofList [17, 13] 2 : Vector Int)).2.Size ≠ 0 := by
  decide

/-! ## Resizing (C12) -/

theorem Reserve_ok (E : Env α) (hE : E.NoElementFailure) (vs : List α) (cap n : Nat)
    (hcap : vs.length ≤ cap) (hA : E.allocOk n = true) :
    Reserve E (ofList vs cap) n = (ofList vs (max cap n), Outcome.ret ()) := by
  have hC := ofList_Capacity vs cap hcap
  have hs : (ofList vs cap).size_ = vs.length := rfl
  by_cases hle : n ≤ cap
  · rw [Nat.max_eq_left hle]
    unfold Reserve
    simp [hC, hle]
  · have hlt : cap < n := by omega
    rw [Nat.max_eq_right (le_of_lt hlt)]
    have hal : RawMemory.Allocate E n = some (List.replicate n none) := by
      rw [Allocate_pos E n (by omega), hA]; rfl
    have hsplit : List.replicate n (none : Option α)
        = [] ++ List.replicate vs.length none ++ List.replicate (n - vs.length) none := by
      rw [List.nil_append, ← List.replicate_add]; congr 1; omega
    unfold Reserve
    simp only [hC, hle, if_false, hal, hs]
    rw [ofList_data_nil, hsplit,
      ReallocateData_ok E [] _ [] _ vs _ 0 0 rfl rfl (by simp) (fun w _ => hE.2.1 w)
        (fun w _ => hE.1 w)]
    simp [ofList]

theorem uninitialized_value_construct_n_ok (E : Env α) (hinit : E.valueInitThrows = false)
    (L R xs : List (Option α)) (first n : Nat) (hf : first = L.length) (hx : xs.length = n) :
    uninitialized_value_construct_n E (L ++ xs ++ R) first n
      = (L ++ List.replicate n (some E.valueInit) ++ R, Status.ok) := by
  induction n generalizing L xs first with
  | zero =>
    have : xs = [] := List.length_eq_zero.mp hx
    simp [uninitialized_value_construct_n, this]
  | succ n ih =>
    obtain ⟨y, ys, rfl⟩ : ∃ y ys, xs = y :: ys := by
      cases xs with
      | nil => simp at hx
      | cons y ys => exact ⟨y, ys, rfl⟩
    have h1 : first < (L ++ y :: ys ++ R).length := by simp [hf]
    have h2 : (L ++ y :: ys ++ R).set first (some E.valueInit)
        = (L ++ [some E.valueInit]) ++ ys ++ R := by
      rw [List.append_assoc, List.cons_append, set_mid L _ _ _ _ hf]; simp
    simp only [uninitialized_value_construct_n, h1, if_true, hinit, Bool.false_eq_true,
      if_false, h2]
    rw [ih (L ++ [some E.valueInit]) ys (first + 1) (by simp [hf]) (by simpa using hx)]
    simp [List.replicate_succ]

theorem Resize_ok (E : Env α) (hE : E.NoElementFailure) (hA : E.NoAllocFailure)
    (vs : List α) (cap m : Nat) (hcap : vs.length ≤ cap) :
    Resize E (ofList vs cap) m
      = (ofList (vs.take m ++ List.replicate (m - vs.length) E.valueInit)
          (if vs.length < m then max cap m else cap), Outcome.ret ()) := by
  have hs : (ofList vs cap).size_ = vs.length := rfl
  unfold Resize
  simp only [hs]
  by_cases heq : m = vs.length
  · subst heq
    simp
  · simp only [heq, if_false]
    by_cases hlt : m < vs.length
    · have hnot : ¬ vs.length < m := by omega
      simp only [hlt, if_true, hnot, if_false]
      have hd : (ofList vs cap).data_
          = (vs.take m).map some ++ (vs.drop m).map some
            ++ List.replicate (cap - vs.length) none := by
        simp only [ofList, ← List.map_append, List.take_append_drop]
      have h2 := destroy_n_live ((vs.take m).map some) (List.replicate (cap - vs.length) none)
        (vs.drop m) m (by simp; omega)
      have hdl : (vs.drop m).length = vs.length - m := by simp
      rw [hdl] at h2
      rw [hd, h2]
      have hz : m - vs.length = 0 := by omega
      simp only [hz, List.replicate_zero, List.append_nil, ofList, Prod.mk.injEq,
        Vector.mk.injEq, and_true]
      have htl : (vs.take m).length = m := by simp; omega
      rw [htl, List.append_assoc, ← List.replicate_add]
      exact ⟨by congr 2; omega, rfl⟩
    · have hgt : vs.length < m := by omega
      have hgt2 : m > vs.length := hgt
      simp only [hlt, if_false, hgt2, if_true, hgt]
      rw [Reserve_ok E hE vs cap m hcap (hA m)]
      simp only
      have hmax : m ≤ max cap m := le_max_right _ _
      have hd : (ofList vs (max cap m)).data_
          = vs.map some ++ List.replicate (m - vs.length) none
            ++ List.replicate (max cap m - m) none := by
        simp only [ofList, List.append_assoc, ← List.replicate_add]
        congr 2; omega
      have hs2 : (ofList vs (max cap m)).size_ = vs.length := rfl
      rw [hs2, hd,
        uninitialized_value_construct_n_ok E hE.2.2.2.2 (vs.map some) _ _ vs.length
          (m - vs.length) (by simp) (by simp)]
      have htk : vs.take m = vs := List.take_of_length_le (by omega)
      simp only [htk, ofList, Prod.mk.injEq, Vector.mk.injEq, and_true, List.map_append,
        List.map_replicate, List.length_append, List.length_replicate]
      refine ⟨by congr 2; omega, by omega⟩

/-- C12: with no failing element operation or allocation, `Resize(m)` on a
vector holding `vs` (size `n`) in `c` slots yields size `m`: nothing changes
for `m = n`; the elements are `vs.take m` in the same `c` slots for `m < n`;
they are `vs` followed by `m - n` value-initialised elements in
`max(c, m)` slots for `m > n`. -/
theorem resize_yields (E : Env α) (hE : E.NoElementFailure) (hA : E.NoAllocFailure)
    (vs : List α) (cap m : Nat) (hcap : vs.length ≤ cap) :
    (Resize E (ofList vs cap) m).2 = Outcome.ret ()
      ∧ (Resize E (ofList vs cap) m).1.Size = m
      ∧ (m = vs.length → Resize E (ofList vs cap) m = (ofList vs cap, Outcome.ret ()))
      ∧ (m < vs.length → Resize E (ofList vs cap) m = (ofList (vs.take m) cap, Outcome.ret ()))
      ∧ (m > vs.length → Resize E (ofList vs cap) m
          = (ofList (vs ++ List.replicate (m - vs.length) E.valueInit) (max cap m),
              Outcome.ret ())) := by
  have h := Resize_ok E hE hA vs cap m hcap
  refine ⟨by rw [h], ?_, ?_, ?_, ?_⟩
  · rw [h]
    simp only [ofList, Size, List.length_append, List.length_take, List.length_replicate]
    omega
  · intro heq
    subst heq
    rw [h]
    simp
  · intro hlt
    rw [h]
    have hz : m - vs.length = 0 := by omega
    have hnot : ¬ vs.length < m := by omega
    simp [hz, hnot]
  · intro hgt
    rw [h]
    have hlt : vs.length < m := hgt
    have htk : vs.take m = vs := List.take_of_length_le (by omega)
    simp [htk, hlt]

theorem resize_yields_witness :
    Resize intEnv (ofList [42, 56] 10) 5 = (ofList [42, 56, 0, 0, 0] 10, Outcome.ret ()) :=
  (resize_yields intEnv intEnv_noElementFailure intEnv_noAllocFailure [42, 56] 10 5
    (by decide)).2.2.2.2 (by decide)

/-! ## The scenario of the functionality test (C13) -/

/-- C13 (amended): on `Vector<int>`, from the empty vector, `Reserve(10)` gives
capacity 10 and size 0; `PushBack(42)`, `PushBack(56)` give `[42, 56]` (size 2);
`Resize(5)` gives `[42, 56, 0, 0, 0]` with capacity still 10; erasing at
`begin()` twice and at the last element twice (in this order, or alternating as
the test does) leaves size 1, and the single remaining value is `0`: the two
erasures at `begin()` removed `42` and `56`. -/
theorem scenario_states :
    run intEnv [] [Call.default_construct, .reserve 0 10] = some [ofList [] 10]
      ∧ (ofList [] 10 : Vector Int).Capacity = 10 ∧ (ofList [] 10 : Vector Int).Size = 0
      ∧ run intEnv [ofList [] 10] [Call.push_back 0 42, .push_back 0 56]
          = some [ofList [42, 56] 10]
      ∧ (ofList [42, 56] 10 : Vector Int).Size = 2
      ∧ run intEnv [ofList [42, 56] 10] [Call.resize 0 5] = some [ofList [42, 56, 0, 0, 0] 10]
      ∧ (ofList [42, 56, 0, 0, 0] 10 : Vector Int).Capacity = 10
      ∧ run intEnv [ofList [42, 56, 0, 0, 0] 10]
          [Call.erase 0 0, .erase 0 0, .erase 0 2, .erase 0 1] = some [ofList [0] 10]
      ∧ run intEnv [ofList [42, 56, 0, 0, 0] 10]
          [Call.erase 0 0, .erase 0 3, .erase 0 0, .erase 0 1] = some [ofList [0] 10]
      ∧ (ofList [0] 10 : Vector Int).Size = 1
      ∧ Vector.subscript (ofList [0] 10 : Vector Int) 0 = (ofList [0] 10, Outcome.ret 0) := by
  decide

/-- C13 as stated fails: after the whole scenario the vector has size 1 and its
only element is `0`, not `56`. -/
theorem scenario_remaining_value_not_56 :
    run intEnv []
        [Call.default_construct, .reserve 0 10, .push_back 0 42, .push_back 0 56, .resize 0 5,
          .erase 0 0, .erase 0 0, .erase 0 2, .erase 0 1] = some [ofList [0] 10]
      ∧ (Vector.subscript (ofList [0] 10 : Vector Int) 0).2 ≠ Outcome.ret 56 := by
  decide

/-! ## Checked and unchecked access (C14) -/

theorem ofList_getElem? (vs : List α) (cap i : Nat) (hi : i < vs.length) :
    (ofList vs cap).data_[i]? = some (some vs[i]) := by
  simp only [ofList]
  rw [List.getElem?_append_left (by simpa using hi)]
  simp [hi]

/-- C14: on a vector holding `vs`, `At(index)` signals `OutOfRange` exactly when
`index >= size`; for `index < size` both `At(index)` and `operator[]` return the
element `vs[index]` without signalling anything; neither changes the vector. -/
theorem checked_access (vs : List α) (cap index : Nat) :
    ((Vector.At (ofList vs cap) index).2 = Outcome.thrown Exn.out_of_range ↔ index ≥ vs.length)
      ∧ (∀ h : index < vs.length,
          Vector.At (ofList vs cap) index = (ofList vs cap, Outcome.ret vs[index])
          ∧ Vector.subscript (ofList vs cap) index = (ofList vs cap, Outcome.ret vs[index]))
      ∧ (Vector.At (ofList vs cap) index).1 = ofList vs cap
      ∧ (Vector.subscript (ofList vs cap) index).1 = ofList vs cap := by
  have hs : (ofList vs cap).size_ = vs.length := rfl
  by_cases hi : index < vs.length
  · have hnot : ¬ index ≥ vs.length := by omega
    have hget := ofList_getElem? vs cap index hi
    have hAt : Vector.At (ofList vs cap) index = (ofList vs cap, Outcome.ret vs[index]) := by
      unfold Vector.At
      simp only [hs, hnot, if_false, hget]
    have hSub : Vector.subscript (ofList vs cap) index
        = (ofList vs cap, Outcome.ret vs[index]) := by
      unfold Vector.subscript
      simp only [hs, hi, if_true, hget]
    refine ⟨?_, fun _ => ⟨hAt, hSub⟩, by rw [hAt], by rw [hSub]⟩
    rw [hAt]
    simp [hnot]
  · have hge : index ≥ vs.length := by omega
    have hAt : Vector.At (ofList vs cap) index = (ofList vs cap, Outcome.thrown Exn.out_of_range) := by
      unfold Vector.At
      simp only [hs, hge, if_true]
    have hSub : Vector.subscript (ofList vs cap) index = (ofList vs cap, Outcome.undefined) := by
      unfold Vector.subscript
      simp only [hs, hi, if_false]
    refine ⟨?_, fun h => absurd h hi, by rw [hAt], by rw [hSub]⟩
    rw [hAt]
    simp [hge]

theorem checked_access_witness :
    (Vector.At (ofList [42, 56] 10 : Vector Int) 2).2 = Outcome.thrown Exn.out_of_range
      ∧ Vector.At (ofList [42, 56] 10 : Vector Int) 1 = (ofList [42, 56] 10, Outcome.ret 56) :=
  ⟨(checked_access [42, 56] 10 2).1.mpr (by decide),
    ((checked_access ([42, 56] : List Int) 10 1).2.1 (by decide)).1⟩

/-! ## Appending and copy construction (C15, C16) -/

/-- Appending when nothing fails: with no failing element operation or
allocation, `EmplaceBack` and `PushBack` on a vector holding `vs` yield
`vs ++ [x]` (size `n + 1`), every existing element keeps its value and index,
the returned reference denotes index `n`, which holds `x`, and the capacity is
unchanged when `n < capacity`. -/
theorem emplace_back_appends (E : Env α) (hE : E.NoElementFailure) (hA : E.NoAllocFailure)
    (vs : List α) (cap : Nat) (x : α) (hcap : vs.length ≤ cap) :
    EmplaceBack E (ofList vs cap) (some x)
        = (ofList (vs ++ [x])
            (if vs.length = cap then (if vs.length = 0 then 1 else vs.length * 2) else cap),
           Outcome.ret vs.length)
      ∧ PushBack E (ofList vs cap) x
        = (ofList (vs ++ [x])
            (if vs.length = cap then (if vs.length = 0 then 1 else vs.length * 2) else cap),
           Outcome.ret ())
      ∧ PushBackMove E (ofList vs cap) x
        = (ofList (vs ++ [x])
            (if vs.length = cap then (if vs.length = 0 then 1 else vs.length * 2) else cap),
           Outcome.ret ())
      ∧ (EmplaceBack E (ofList vs cap) (some x)).1.Size = vs.length + 1
      ∧ (∀ i, i < vs.length → (vs ++ [x])[i]? = vs[i]?)
      ∧ (vs ++ [x])[vs.length]? = some x
      ∧ (vs.length < cap →
          (EmplaceBack E (ofList vs cap) (some x)).1.Capacity = (ofList vs cap).Capacity) := by
  have hb := EmplaceBack_ok E hE hA vs cap x hcap
  refine ⟨hb, ?_, ?_, ?_, ?_, ?_, ?_⟩
  · unfold PushBack
    simp only [hE.1 x, Bool.false_eq_true, if_false, hb]
  · unfold PushBackMove
    simp only [hE.2.1 x, Bool.false_eq_true, if_false, hb]
  · rw [hb]; simp [ofList, Size]
  · intro i hi
    exact List.getElem?_append_left hi
  · simp
  · intro hlt
    have hne : ¬ vs.length = cap := by omega
    rw [hb]
    simp only [hne, if_false]
    rw [ofList_Capacity _ _ (by simpa using hlt), ofList_Capacity _ _ hcap]

/-- C15: a full vector `[7, 13]` whose element copy constructor throws on `13`.
`EmplaceBack(5)` and `PushBack(5)` return normally, the reference returned by
`EmplaceBack` denotes index 2, which holds `5`, and the size is 3; but the
vector is not `[7, 13, 5]`: the relocation threw, the handler swallowed the
exception, and slots 0 and 1, which held `7` and `13` before the call, are raw
(`operator[]` on them is undefined). -/
theorem emplace_back_returns_without_old_elements :
    EmplaceBack throwingCopyEnv (ofList [7, 13] 2) (some 5)
        = (Vector.mk [none, none, some 5, none] 3, Outcome.ret 2)
      ∧ (EmplaceBack throwingCopyEnv (ofList [7, 13] 2) (some 5)).1 ≠ ofList [7, 13, 5] 4
      ∧ (PushBack throwingCopyEnv (ofList [7, 13] 2) 5).2 = Outcome.ret ()
      ∧ (PushBack throwingCopyEnv (ofList [7, 13] 2) 5).1 ≠ ofList [7, 13, 5] 4
      ∧ Vector.subscript (ofList [7, 13] 2 : Vector Int) 0 = (ofList [7, 13] 2, Outcome.ret 7)
      ∧ (Vector.subscript (EmplaceBack throwingCopyEnv (ofList [7, 13] 2) (some 5)).1 0).2
          = Outcome.undefined
      ∧ (Vector.subscript (EmplaceBack throwingCopyEnv (ofList [7, 13] 2) (some 5)).1 1).2
          = Outcome.undefined
      ∧ (Vector.subscript (EmplaceBack throwingCopyEnv (ofList [7, 13] 2) (some 5)).1 2).2
          = Outcome.ret 5 := by
  decide

/-- C16: with no failing element operation or allocation, the copy constructed
from a vector holding `vs` has capacity exactly `other.size`, size `other.size`
and the elements `vs` in order, and `other` is left as it was. -/
theorem copy_construct_copies (E : Env α) (hE : E.NoElementFailure) (hA : E.NoAllocFailure)
    (vs : List α) (cap : Nat) :
    construct_copy E (ofList vs cap) = Outcome.ret (ofList vs vs.length)
      ∧ (ofList vs vs.length).Capacity = (ofList vs cap).Size
      ∧ (ofList vs vs.length).Size = (ofList vs cap).Size
      ∧ step E [ofList vs cap] (Call.copy_construct 0)
          = some [ofList vs cap, ofList vs vs.length] := by
  have h := construct_copy_ok E hE hA vs cap
  refine ⟨h, ofList_Capacity vs vs.length (le_refl _), rfl, ?_⟩
  simp [step, h]

theorem copy_construct_copies_witness :
    construct_copy intEnv (ofList [17, 13] 4) = Outcome.ret (ofList [17, 13] 2) :=
  (copy_construct_copies intEnv intEnv_noElementFailure intEnv_noAllocFailure [17, 13] 4).1

/-! ## A failing allocation (C17) -/

/-- C17: when the request for the new block fails, each operation that asks for
storage (`Reserve`, a growing `Resize`, `EmplaceBack`/`PushBack` and
`Emplace`/`Insert` on a full vector, copy assignment from a source larger than
the capacity) ends with `bad_alloc` and leaves the vector exactly as it was:
the allocation comes before any element is touched. -/
theorem allocation_failure_leaves_vector (E : Env α) (v : Vector α) :
    (∀ n, v.Capacity < n → RawMemory.Allocate E n = none →
        Reserve E v n = (v, Outcome.thrown Exn.bad_alloc))
      ∧ (∀ n, v.Size < n → v.Capacity < n → RawMemory.Allocate E n = none →
        Resize E v n = (v, Outcome.thrown Exn.bad_alloc))
      ∧ (∀ args x, v.Size = v.Capacity →
        RawMemory.Allocate E (if v.Size = 0 then 1 else v.Size * 2) = none →
        EmplaceBack E v args = (v, Outcome.thrown Exn.bad_alloc)
        ∧ PushBack E v x = (v, Outcome.thrown Exn.bad_alloc)
        ∧ PushBackMove E v x = (v, Outcome.thrown Exn.bad_alloc))
      ∧ (∀ index args x, index ≤ v.Size → v.Size = v.Capacity →
        RawMemory.Allocate E (if v.Size = 0 then 1 else v.Size * 2) = none →
        Emplace E v index args = (v, Outcome.thrown Exn.bad_alloc)
        ∧ Vector.Insert E v index x = (v, Outcome.thrown Exn.bad_alloc)
        ∧ InsertMove E v index x = (v, Outcome.thrown Exn.bad_alloc))
      ∧ (∀ rhs : Vector α, rhs.Size > v.Capacity → RawMemory.Allocate E rhs.Size = none →
        Vector.copy_assign E v rhs = (v, Outcome.thrown Exn.bad_alloc)) := by
  have hEB : ∀ args, v.size_ = v.Capacity →
      RawMemory.Allocate E (if v.size_ = 0 then 1 else v.size_ * 2) = none →
      EmplaceBack E v args = (v, Outcome.thrown Exn.bad_alloc) := by
    intro args hfull hal
    unfold EmplaceBack
    simp only [hfull, if_true] at hal ⊢
    simp only [hal]
  have hEm : ∀ index args, index ≤ v.size_ → v.size_ = v.Capacity →
      RawMemory.Allocate E (if v.size_ = 0 then 1 else v.size_ * 2) = none →
      Emplace E v index args = (v, Outcome.thrown Exn.bad_alloc) := by
    intro index args hle hfull hal
    by_cases hend : index = v.size_
    · unfold Emplace
      simp only [hend, le_refl, if_true, hEB args hfull hal]
    · have hroom : ¬ v.size_ < v.Capacity := by omega
      unfold Emplace
      simp only [hle, if_true, hend, if_false, hroom, hal]
  refine ⟨?_, ?_, ?_, ?_, ?_⟩
  · intro n hn hal
    have hnle : ¬ n ≤ v.Capacity := by omega
    unfold Reserve
    simp only [hnle, if_false, hal]
  · intro n hs hn hal
    simp only [Size] at hs
    have hnle : ¬ n ≤ v.Capacity := by omega
    have h1 : ¬ n = v.size_ := by omega
    have h2 : ¬ n < v.size_ := by omega
    have h3 : n > v.size_ := hs
    have hR : Reserve E v n = (v, Outcome.thrown Exn.bad_alloc) := by
      unfold Reserve
      simp only [hnle, if_false, hal]
    unfold Resize
    simp only [h1, h2, h3, if_true, if_false, hR]
  · intro args x hfull hal
    simp only [Size] at hfull hal
    refine ⟨hEB args hfull hal, ?_, ?_⟩
    · unfold PushBack
      simp only [hEB _ hfull hal]
    · unfold PushBackMove
      simp only [hEB _ hfull hal]
  · intro index args x hle hfull hal
    simp only [Size] at hle hfull hal
    exact ⟨hEm index args hle hfull hal, hEm index _ hle hfull hal, hEm index _ hle hfull hal⟩
  · intro rhs hbig hal
    simp only [Size] at hbig hal
    have hc : construct_copy E rhs = Outcome.thrown Exn.bad_alloc := by
      unfold construct_copy
      simp only [hal]
    unfold Vector.copy_assign
    simp only [hbig, if_true, hc]

theorem allocation_failure_leaves_vector_witness :
    Reserve smallHeapEnv (ofList [1, 2] 2) 5 = (ofList [1, 2] 2, Outcome.thrown Exn.bad_alloc) :=
  (allocation_failure_leaves_vector smallHeapEnv (ofList [1, 2] 2)).1 5 (by decide) (by decide)

/-! ## A failing shift during an insertion in place (C18) -/

/-- C18: a vector `[1, 2, 3]` in five slots whose element move assignment throws
when `2` is moved. `Emplace(begin(), 9)` opens slot 3, the backward shift throws
on its first assignment, the handler destroys slot 2 (`end() - 1`, a counted
element, not the new trailing slot 3) and swallows the exception; the call
returns normally with size 4 although slot 2 is raw, and `operator[](2)` on
the result is undefined. -/
theorem emplace_in_place_failure_leaves_raw_slot :
    Emplace throwingAssignEnv (ofList [1, 2, 3] 5) 0 (some 9)
        = (Vector.mk [some 9, some 2, none, some 3, none] 4, Outcome.ret 0)
      ∧ (move_backward throwingAssignEnv [some 1, some 2, some 3, some 3, none] 0 2 3).2
          = Status.thrown Exn.element_failure
      ∧ (Vector.mk [some 9, some 2, none, some 3, none] 4 : Vector Int).data_[2]? = some none
      ∧ (Vector.subscript (Vector.mk [some 9, some 2, none, some 3, none] 4 : Vector Int) 2).2
          = Outcome.undefined := by
  decide

/-! ## Insert then erase (C19) -/

/-- C19: with no failing element operation or allocation, `Insert` at index
`i <= n` followed by `Erase` at index `i` gives back a vector holding exactly
`vs` (same size), in a block at least as large as the original one. -/
theorem insert_then_erase (E : Env α) (hE : E.NoElementFailure) (hA : E.NoAllocFailure)
    (vs : List α) (cap i : Nat) (x : α) (hcap : vs.length ≤ cap) (hi : i ≤ vs.length) :
    (Vector.Insert E (ofList vs cap) i x).2 = Outcome.ret i
      ∧ Erase E (Vector.Insert E (ofList vs cap) i x).1 i
        = (ofList vs (if vs.length < cap then cap else if vs.length = 0 then 1
            else vs.length * 2), Outcome.ret i)
      ∧ (Erase E (Vector.Insert E (ofList vs cap) i x).1 i).1.Size = (ofList vs cap).Size
      ∧ (ofList vs cap).Capacity ≤ (Erase E (Vector.Insert E (ofList vs cap) i x).1 i).1.Capacity
          := by
  have hins : Vector.Insert E (ofList vs cap) i x
      = (ofList (vs.take i ++ x :: vs.drop i)
          (if vs.length < cap then cap else if vs.length = 0 then 1 else vs.length * 2),
         Outcome.ret i) := by
    unfold Vector.Insert
    simp only [hE.1 x, Bool.false_eq_true, if_false]
    exact Emplace_ok E hE hA vs cap i x hcap hi
  have hcap1 : vs.length + 1 ≤
      (if vs.length < cap then cap else if vs.length = 0 then 1 else vs.length * 2) := by
    split
    · omega
    · split <;> omega
  have hcap2 : cap ≤
      (if vs.length < cap then cap else if vs.length = 0 then 1 else vs.length * 2) := by
    split
    · omega
    · split <;> omega
  have hpl : (vs.take i).length = i := by simp; omega
  have hsplit := Erase_split E (vs.take i) (vs.drop i) x
    (if vs.length < cap then cap else if vs.length = 0 then 1 else vs.length * 2)
    (by simp only [List.length_append, List.length_cons, hpl, List.length_drop]; omega)
  have hno : (vs.drop i).any E.moveAssignThrows = false := by
    rw [List.any_eq_false]
    intro a _
    simp [hE.2.2.2.1 a]
  rw [hpl, hno] at hsplit
  simp only [Bool.false_eq_true, if_false, List.take_append_drop] at hsplit
  rw [hins]
  simp only [hsplit]
  refine ⟨trivial, trivial, rfl, ?_⟩
  rw [ofList_Capacity vs cap hcap, ofList_Capacity vs _ (by omega)]
  exact hcap2

theorem insert_then_erase_witness :
    Erase intEnv (Vector.Insert intEnv (ofList [1, 2, 3] 3) 1 9).1 1
      = (ofList [1, 2, 3] (if [1, 2, 3].length < 3 then 3 else if [1, 2, 3].length = 0 then 1
          else [1, 2, 3].length * 2), Outcome.ret 1) :=
  (insert_then_erase intEnv intEnv_noElementFailure intEnv_noAllocFailure [1, 2, 3] 3 1 9
    (by decide) (by decide)).2.1

/-! ## Capacity never shrinks (C20) -/

/-- C20: whatever the vector and however the call ends, none of `Reserve`,
`Resize`, `PushBack`, `EmplaceBack`, `PopBack`, `Insert`, `Emplace`, `Erase` and
copy assignment leaves a capacity below the one it found; `Swap` and move
assignment (the exchange with another vector, which is also all the move
constructor does to its source) can: a vector of capacity 4 swapped with, or
move-assigned from, an empty one ends with capacity 0. -/
theorem capacity_monotone (E : Env α) (v : Vector α) :
    (∀ n, v.Capacity ≤ (Reserve E v n).1.Capacity)
      ∧ (∀ n, v.Capacity ≤ (Resize E v n).1.Capacity)
      ∧ (∀ x, v.Capacity ≤ (PushBack E v x).1.Capacity)
      ∧ (∀ x, v.Capacity ≤ (PushBackMove E v x).1.Capacity)
      ∧ (∀ args, v.Capacity ≤ (EmplaceBack E v args).1.Capacity)
      ∧ v.Capacity ≤ (PopBack v).1.Capacity
      ∧ (∀ i x, v.Capacity ≤ (Vector.Insert E v i x).1.Capacity)
      ∧ (∀ i x, v.Capacity ≤ (InsertMove E v i x).1.Capacity)
      ∧ (∀ i args, v.Capacity ≤ (Emplace E v i args).1.Capacity)
      ∧ (∀ i, v.Capacity ≤ (Erase E v i).1.Capacity)
      ∧ (∀ rhs, v.Capacity ≤ (Vector.copy_assign E v rhs).1.Capacity)
      ∧ (Swap (ofList [E.valueInit] 4) Vector.empty).1.Capacity
          < (ofList [E.valueInit] 4).Capacity
      ∧ (move_assign (ofList [E.valueInit] 4) Vector.empty).1.Capacity
          < (ofList [E.valueInit] 4).Capacity := by
  have hEB : ∀ args, v.Capacity ≤ (EmplaceBack E v args).1.Capacity := by
    intro args
    rcases EmplaceBack_shape E v args with ⟨-, -, hle, h⟩ | ⟨-, -, h⟩
    · rw [h]; split
      · split <;> omega
      · omega
    · omega
  have hEm : ∀ i args, v.Capacity ≤ (Emplace E v i args).1.Capacity := by
    intro i args
    rcases Emplace_shape E v i args with ⟨-, -, -, h⟩ | ⟨-, -, h⟩
    · rw [h]; split
      · omega
      · split <;> omega
    · omega
  refine ⟨?_, ?_, ?_, ?_, hEB, ?_, ?_, ?_, hEm, ?_, ?_, ?_, ?_⟩
  · intro n
    rcases (Reserve_shape E v n).2.1 with h | ⟨-, h1, h2⟩ <;> omega
  · intro n
    rcases Resize_shape E v n with ⟨-, -, h⟩ | ⟨-, -, h⟩
    · rw [h]; split
      · exact le_max_left _ _
      · omega
    · exact h
  · intro x
    rw [PushBack_fst]; exact hEB _
  · intro x
    rw [PushBackMove_fst]; exact hEB _
  · rcases PopBack_shape v with ⟨-, -, -, h⟩ | ⟨-, -, h⟩ <;> omega
  · intro i x
    exact hEm i _
  · intro i x
    exact hEm i _
  · intro i
    rcases Erase_shape E v i with ⟨-, -, -, h⟩ | ⟨-, -, h⟩ <;> omega
  · intro rhs
    rcases copy_assign_shape E v rhs with ⟨-, -, h⟩ | ⟨-, -, h⟩
    · rw [h]; split <;> omega
    · omega
  · simp [Swap, ofList, Vector.empty, Capacity, RawMemory.Capacity]
  · simp [move_assign, Swap, ofList, Vector.empty, Capacity, RawMemory.Capacity]

end AdvancedVector
